import Mathlib

/-!
# pgn_csv.cpp: a shallow embedding

A `std::string` is a list of characters, one `Char` per C++ `char`.  Indices
and lengths are `size_t` values, written as natural numbers; the one place
where the source subtracts below zero (`length() - 2` on a one-character
string) goes through `sizeSub`, which wraps modulo `2 ^ 64`.  The `int` game
counter is a natural number: signed overflow is undefined behaviour in C++
and lies outside this model.
-/

namespace PgnCsv

/-- A `std::string`. -/
abbrev Str := List Char

/-- The value `std::string::npos`. -/
def npos : Nat := 2 ^ 64 - 1

/-- Subtraction of two `size_t` values (both below `2 ^ 64`): wraps around
when the result would be negative. -/
def sizeSub (a b : Nat) : Nat := if b ≤ a then a - b else a + 2 ^ 64 - b

/-- The call `s.substr(pos, len)` for `pos ≤ s.size()`. -/
def substr (s : Str) (pos len : Nat) : Str := (s.drop pos).take len

/-- The call `s.substr(pos)` for `pos ≤ s.size()`. -/
def substrFrom (s : Str) (pos : Nat) : Str := s.drop pos

/-- The call `s.find(c)`: index of the first occurrence, `none` for `npos`. -/
def find (c : Char) : Str → Option Nat
  | [] => none
  | d :: ds => if d = c then some 0 else (find c ds).map (· + 1)

/-- The call `s.find_first_not_of(chars)`. -/
def find_first_not_of (chars : Str) : Str → Option Nat
  | [] => none
  | d :: ds => if d ∈ chars then (find_first_not_of chars ds).map (· + 1) else some 0

/-- The call `s.find_last_not_of(chars)`: the scan runs from the back. -/
def find_last_not_of (chars : Str) (s : Str) : Option Nat :=
  (find_first_not_of chars s.reverse).map (fun i => s.length - 1 - i)

/-- The literal `" \t\r\n"`. -/
def whitespace : Str := [' ', '\t', '\r', '\n']

/-- The method `PGNParser::trim`. -/
def trim (str : Str) : Str :=
  match find_first_not_of whitespace str with
  | none => []
  | some start =>
    let e := (find_last_not_of whitespace str).getD npos
    substr str start (sizeSub e start + 1)

/-- The function `std::toupper` in the "C" locale. -/
def toupper (c : Char) : Char := c.toUpper

/-- The function `::isdigit` in the "C" locale. -/
def isdigit (c : Char) : Bool := c.isDigit

/-- The method `PGNParser::categorizeOpening`. -/
def categorizeOpening (eco : Str) : Str :=
  if eco.isEmpty then "Unknown category".toList
  else
    let trimmedEco := trim eco
    match trimmedEco with
    | [] => "Unknown category".toList
    | c0 :: _ =>
      let first := toupper c0
      if first = 'A' then "Flankeneröffnung".toList
      else if first = 'B' then "Halboffene Eröffnung".toList
      else if first = 'C' then "Offene Eröffnung".toList
      else if first = 'D' then "Geschlossene Eröffnung".toList
      else if first = 'E' then "Indische Verteidigung".toList
      else "Unknown category".toList

/-- The loop body of `escapeCSV`: every double quote is written twice. -/
def escapeLoop : Str → Str
  | [] => []
  | c :: cs => if c = '"' then '"' :: '"' :: escapeLoop cs else c :: escapeLoop cs

/-- The method `PGNParser::escapeCSV`. -/
def escapeCSV (field : Str) : Str :=
  if (find ',' field).isSome || (find '"' field).isSome || (find '\n' field).isSome then
    ['"'] ++ escapeLoop field ++ ['"']
  else field

/-- The method `PGNParser::formatNumber`. -/
def formatNumber (value : Str) : Str :=
  let result :=
    if !value.isEmpty && value.head? == some '"' && value.getLast? == some '"' then
      substr value 1 (sizeSub value.length 2)
    else value
  if result.isEmpty || !result.all isdigit then [] else result

/-- The struct `PGNParser::GameData`. -/
structure GameData where
  gameNumber : Nat
  whiteElo : Str
  blackElo : Str
  eco : Str
  opening : Str
  event : Str
  result : Str
  openingCategory : Str
  deriving DecidableEq, Repr

/-- A `std::map<std::string, std::string>` as an association list with
distinct keys. -/
abbrev HeaderMap := List (Str × Str)

/-- The assignment `headers[key] = value`. -/
def HeaderMap.set (key value : Str) : HeaderMap → HeaderMap
  | [] => [(key, value)]
  | (k, v) :: m => if k = key then (key, value) :: m else (k, v) :: HeaderMap.set key value m

/-- The call `headers.find(key)`, `none` for `headers.end()`. -/
def HeaderMap.find (key : Str) : HeaderMap → Option Str
  | [] => none
  | (k, v) :: m => if k = key then some v else HeaderMap.find key m

/-- The class `PGNParser`: its only data member is `headers`. -/
structure PGNParser where
  headers : HeaderMap
  deriving DecidableEq, Repr

/-- The method `PGNParser::getHeaderValue`. -/
def getHeaderValue (p : PGNParser) (key : Str) : Str :=
  match HeaderMap.find key p.headers with
  | some v => v
  | none => []

/-- The lines that repeated `std::getline(iss, line)` yields on a stream
holding `text`; `cur` is the part of the current line already extracted.  At
end of input a line is returned only when a character was extracted. -/
def getlinesAux (cur : Str) : Str → List Str
  | [] => if cur.isEmpty then [] else [cur]
  | c :: cs => if c = '\n' then cur :: getlinesAux [] cs else getlinesAux (cur ++ [c]) cs

/-- All lines read by `while (std::getline(iss, line))` from `text`. -/
def getlines (text : Str) : List Str := getlinesAux [] text

/-- The step "Remove closing bracket first" of `parseGame`. -/
def removeClosingBracket (value : Str) : Str :=
  if !value.isEmpty && value.getLast? == some ']' then
    substr value 0 (sizeSub value.length 1)
  else value

/-- The step "Remove quotes" of `parseGame`. -/
def removeQuotes (value : Str) : Str :=
  if decide (value.length ≥ 2) && value.head? == some '"' && value.getLast? == some '"' then
    substr value 1 (sizeSub value.length 2)
  else value

/-- The `if (line[0] == '[' && line.back() == ']')` statement of `parseGame`,
for a trimmed non-empty `line`. -/
def parseHeaderLine (line : Str) (headers : HeaderMap) : HeaderMap :=
  if line.head? == some '[' && line.getLast? == some ']' then
    match find ' ' line with
    | some spacePos =>
      let key := substr line 1 (sizeSub spacePos 1)
      let value := substrFrom line (spacePos + 1)
      let value := removeClosingBracket value
      let value := removeQuotes value
      HeaderMap.set key value headers
    | none => headers
  else headers

/-- The header loop of `parseGame` over the lines still to be read. -/
def parseHeaders : List Str → HeaderMap → HeaderMap
  | [], headers => headers
  | raw :: rest, headers =>
    let line := trim raw
    if line.isEmpty then headers
    else parseHeaders rest (parseHeaderLine line headers)

/-- The method `PGNParser::parseGame`: returns the result, the parser after
the call and the out-parameter `data`. -/
def parseGame (p : PGNParser) (gameText : Str) (data : GameData) :
    Bool × PGNParser × GameData :=
  let p : PGNParser := { p with headers := [] }
  let p : PGNParser := { p with headers := parseHeaders (getlines gameText) p.headers }
  let data := { data with whiteElo := getHeaderValue p "WhiteElo".toList }
  let data := { data with blackElo := getHeaderValue p "BlackElo".toList }
  let data := { data with eco := getHeaderValue p "ECO".toList }
  let data := { data with opening := getHeaderValue p "Opening".toList }
  let data := { data with event := getHeaderValue p "Event".toList }
  let data := { data with result := getHeaderValue p "Result".toList }
  let data := { data with openingCategory := categorizeOpening data.eco }
  (!p.headers.isEmpty, p, data)

/-- A `GameData` as declared in `main`: the strings are default-constructed. -/
def GameData.fresh (gameNumber : Nat) : GameData :=
  { gameNumber := gameNumber, whiteElo := [], blackElo := [], eco := [], opening := [],
    event := [], result := [], openingCategory := [] }

/-- The first line written to `outFile`. -/
def csvHeader : Str :=
  "GameNumber,WhiteElo,BlackElo,ECO,Opening,Event,Result,OpeningCategory".toList

/-- The text that `outFile << data.gameNumber << "," << ... << data.openingCategory`
writes for one game, without the final newline. -/
def writeRow (data : GameData) : Str :=
  Nat.toDigits 10 data.gameNumber ++ [','] ++ formatNumber data.whiteElo ++ [','] ++
  formatNumber data.blackElo ++ [','] ++ data.eco ++ [','] ++ escapeCSV data.opening ++ [','] ++
  escapeCSV data.event ++ [','] ++ data.result ++ [','] ++ data.openingCategory

/-- The local variables of `main` from line 157 on; `outFile` holds the data
rows written so far, one entry per `<< "\n"`-terminated row. -/
structure MainState where
  parser : PGNParser
  currentGame : Str
  gameNumber : Nat
  inGame : Bool
  outFile : List Str
  deriving DecidableEq, Repr

/-- The state before the first `std::getline(inFile, line)`. -/
def MainState.init : MainState :=
  { parser := { headers := [] }, currentGame := [], gameNumber := 0, inGame := false,
    outFile := [] }

/-- The block "Trim line" at the head of the loop body of `main`: the
value of `trimmedLine` for the line read. -/
def trimLine (line : Str) : Str :=
  match find_first_not_of whitespace line with
  | some start =>
    let e := (find_last_not_of whitespace line).getD npos
    substr line start (sizeSub e start + 1)
  | none => []

/-- One iteration of `while (std::getline(inFile, line))` in `main`. -/
def mainStep (s : MainState) (line : Str) : MainState :=
  let trimmedLine := trimLine line
  if trimmedLine.isEmpty then
    if s.inGame && !s.currentGame.isEmpty then
      let data := GameData.fresh s.gameNumber
      let (ok, parser, data) := parseGame s.parser s.currentGame data
      let s := { s with parser := parser }
      let s :=
        if ok then
          { s with outFile := s.outFile ++ [writeRow data], gameNumber := s.gameNumber + 1 }
        else s
      { s with currentGame := [], inGame := false }
    else s
  else
    { s with currentGame := s.currentGame ++ (line ++ ['\n']), inGame := true }

/-- The block after the loop: "Process last game if file doesn't end with
empty line".  The counter is not incremented here. -/
def mainFinish (s : MainState) : MainState :=
  if s.inGame && !s.currentGame.isEmpty then
    let data := GameData.fresh s.gameNumber
    let (ok, parser, data) := parseGame s.parser s.currentGame data
    let s := { s with parser := parser }
    if ok then { s with outFile := s.outFile ++ [writeRow data] } else s
  else s

/-- The driver of `main` on the lines that `std::getline(inFile, line)` yields. -/
def mainRun (lines : List Str) : MainState :=
  mainFinish (lines.foldl mainStep MainState.init)

/-- The data rows that `main` writes for the input lines. -/
def dataRows (lines : List Str) : List Str := (mainRun lines).outFile

/-! ## Reference definitions

Definitions that the statements below compare the code with (`segments`,
`referenceRows`, `unquote`, `categoryTable`, `csvFields`, `storedTags`,
`isQuoted`, `runRecord`), and the bookkeeping of the proofs (`segmentsFrom`, `closedRuns`,
`openRun`, `LoopInv`, `afterRun`, `tagOf`, `rawTagOf`, `lastValue`). -/

/-- Membership in the literal `" \t\r\n"` as a Boolean test. -/
def isWs (c : Char) : Bool := decide (c ∈ whitespace)

/-- The reference form of `trim`: drop whitespace at the front, then at the back. -/
def trimRef (s : Str) : Str := ((s.dropWhile isWs).reverse.dropWhile isWs).reverse

/-- The unquoted form of a value: `v` without one pair of surrounding double
quotes when `v` begins and ends with a double quote, and `v` otherwise. -/
def unquote (v : Str) : Str :=
  if v.head? = some '"' ∧ v.getLast? = some '"' then (v.drop 1).dropLast else v

/-- The table of the opening classifier, keyed by the first character of the
trimmed code, both letter cases listed. -/
def categoryTable (c : Char) : Str :=
  if c = 'A' ∨ c = 'a' then "Flankeneröffnung".toList
  else if c = 'B' ∨ c = 'b' then "Halboffene Eröffnung".toList
  else if c = 'C' ∨ c = 'c' then "Offene Eröffnung".toList
  else if c = 'D' ∨ c = 'd' then "Geschlossene Eröffnung".toList
  else if c = 'E' ∨ c = 'e' then "Indische Verteidigung".toList
  else "Unknown category".toList

/-- The `switch (first)` of `categorizeOpening` on `first = toupper c`. -/
def categorySwitch (first : Char) : Str :=
  if first = 'A' then "Flankeneröffnung".toList
  else if first = 'B' then "Halboffene Eröffnung".toList
  else if first = 'C' then "Offene Eröffnung".toList
  else if first = 'D' then "Geschlossene Eröffnung".toList
  else if first = 'E' then "Indische Verteidigung".toList
  else "Unknown category".toList

/-- A trimmed line that `parseGame` stores in the header map: it starts with
`[`, ends with `]` and holds a space. -/
def isStoredTag (line : Str) : Prop :=
  line.head? = some '[' ∧ line.getLast? = some ']' ∧ ' ' ∈ line

instance (line : Str) : Decidable (isStoredTag line) := by
  unfold isStoredTag; infer_instance

/-- The trimmed lines of a game text that the header loop of `parseGame`
visits: those before the first line that is empty after trimming. -/
def headerLines (text : Str) : List Str :=
  ((getlines text).map trim).takeWhile (fun l => !l.isEmpty)

/-- The tag line `[K "V"]`. -/
def tagLine (K V : Str) : Str := ['['] ++ K ++ [' '] ++ ['"'] ++ V ++ ['"'] ++ [']']

/-- A line of the input is blank when its trimmed form is empty. -/
def isBlank (line : Str) : Bool := (trim line).isEmpty

/-- The text of a run of lines: each original line followed by a newline. -/
def segmentText (run : List Str) : Str := run.flatMap (fun l => l ++ ['\n'])

/-- The segments of the input: its maximal runs of consecutive non-blank
lines, in input order. -/
def segments (lines : List Str) : List (List Str) :=
  (lines.splitOnP isBlank).filter (fun run => !run.isEmpty)

/-- The result of `parseGame` on the text of one run, on a parser of its own:
the extracted data when the call returns `true`. -/
def parseRun (run : List Str) : Option GameData :=
  let r := parseGame { headers := [] } (segmentText run) (GameData.fresh 0)
  if r.1 then some r.2.2 else none

/-- One row per game, the games numbered `n`, `n + 1`, ... in list order. -/
def numberedRows (n : Nat) (games : List GameData) : List Str :=
  (games.enumFrom n).map (fun ig => writeRow { ig.2 with gameNumber := ig.1 })

/-- The rows of the reference: the segments whose text parses, in input
order, the i-th one (from 0) carrying game number i. -/
def referenceRows (lines : List Str) : List Str :=
  numberedRows 0 ((segments lines).filterMap parseRun)

/-- The segments of `lines` when the run `cur` is already open in front of
them. -/
def segmentsFrom (cur : List Str) : List Str → List (List Str)
  | [] => if cur.isEmpty then [] else [cur]
  | l :: ls =>
    if isBlank l then (if cur.isEmpty then segmentsFrom [] ls else cur :: segmentsFrom [] ls)
    else segmentsFrom (cur ++ [l]) ls

/-- The link between the state of the loop in `main` and the run of lines
`cur` that is open: the buffer holds the text of `cur`, the flag tells whether
`cur` has a line, `n` rows were written and they are `out`. -/
def LoopInv (s : MainState) (cur : List Str) (n : Nat) (out : List Str) : Prop :=
  s.currentGame = segmentText cur ∧ s.inGame = !cur.isEmpty ∧ s.gameNumber = n ∧ s.outFile = out

/-- The rows and the counter after the run `cur` is finalized. -/
def afterRun (cur : List Str) (n : Nat) (out : List Str) : Nat × List Str :=
  match parseRun cur with
  | some d => (n + 1, out ++ [writeRow { d with gameNumber := n }])
  | none => (n, out)

/-- The game-number field of a row: its text before the first comma. -/
def gameNumberField (row : Str) : Str := row.takeWhile (fun c => c != ',')

/-- The six tag lines of a game in the order Event, WhiteElo, BlackElo, ECO,
Opening, Result. -/
def sixTagLines (E W B C O R : Str) : List Str :=
  [tagLine "Event".toList E, tagLine "WhiteElo".toList W, tagLine "BlackElo".toList B,
   tagLine "ECO".toList C, tagLine "Opening".toList O, tagLine "Result".toList R]

/-- The fields of a CSV record: the row is cut at each comma that lies
outside a double-quoted section; `inQuotes` tells whether a quoted section is
open and `cur` is the field read so far. -/
def csvSplitAux (inQuotes : Bool) (cur : Str) : Str → List Str
  | [] => [cur]
  | c :: cs =>
    if c = '"' then csvSplitAux (!inQuotes) (cur ++ [c]) cs
    else if c = ',' ∧ inQuotes = false then cur :: csvSplitAux false [] cs
    else csvSplitAux inQuotes (cur ++ [c]) cs

/-- The fields of a row read as a CSV record. -/
def csvFields (row : Str) : List Str := csvSplitAux false [] row

/-- A field that can be written raw: it holds no comma and no double quote. -/
def isPlainField (f : Str) : Prop := ',' ∉ f ∧ '"' ∉ f

/-- The runs of `lines` that a blank line closes, when the run `cur` is
already open in front of them. -/
def closedRuns (cur : List Str) : List Str → List (List Str)
  | [] => []
  | l :: ls =>
    if isBlank l then (if cur.isEmpty then closedRuns [] ls else cur :: closedRuns [] ls)
    else closedRuns (cur ++ [l]) ls

/-- The run that is still open after `lines`, when the run `cur` is already
open in front of them: the non-blank lines after the last blank one. -/
def openRun (cur : List Str) : List Str → List Str
  | [] => cur
  | l :: ls => if isBlank l then openRun [] ls else openRun (cur ++ [l]) ls

/-- The key and the value that the header loop of `parseGame` stores for a
trimmed line, `none` when the line is not a tag line or has no space. -/
def tagOf (line : Str) : Option (Str × Str) :=
  if line.head? == some '[' && line.getLast? == some ']' then
    match find ' ' line with
    | some spacePos =>
      some (substr line 1 (sizeSub spacePos 1),
        removeQuotes (removeClosingBracket (substrFrom line (spacePos + 1))))
    | none => none
  else none

/-- The keys and values of the tag lines of a game text that `parseGame`
stores, in text order. -/
def storedTags (text : Str) : List (Str × Str) := (headerLines text).filterMap tagOf

/-- The value of the last pair with key `key` while walking through `tags`,
starting from `acc`. -/
def lastValue (key : Str) (acc : Option Str) (tags : List (Str × Str)) : Option Str :=
  tags.foldl (fun a kv => if kv.1 = key then some kv.2 else a) acc

/-- A value begins and ends with a double quote. -/
def isQuoted (v : Str) : Prop := v.head? = some '"' ∧ v.getLast? = some '"'

instance (v : Str) : Decidable (isQuoted v) := by
  unfold isQuoted; infer_instance

/-- The key and the raw value of a trimmed tag line after the step "Remove
closing bracket first" and before the step "Remove quotes" of `parseGame`. -/
def rawTagOf (line : Str) : Option (Str × Str) :=
  if line.head? == some '[' && line.getLast? == some ']' then
    match find ' ' line with
    | some spacePos =>
      some (substr line 1 (sizeSub spacePos 1),
        removeClosingBracket (substrFrom line (spacePos + 1)))
    | none => none
  else none

/-- The record that `parseGame` extracts from the text of a run of lines, on
a parser of its own and with game number 0. -/
def runRecord (run : List Str) : GameData :=
  (parseGame { headers := [] } (segmentText run) (GameData.fresh 0)).2.2

/-! ## Proofs: `trim` -/

theorem find_first_not_of_eq (chars s : Str) :
    find_first_not_of chars s =
      if s.dropWhile (fun c => decide (c ∈ chars)) = [] then none
      else some (s.takeWhile (fun c => decide (c ∈ chars))).length := by
  induction s with
  | nil => simp [find_first_not_of]
  | cons d ds ih =>
    by_cases hd : d ∈ chars
    · simp only [find_first_not_of, hd, if_true, ih, List.dropWhile_cons, List.takeWhile_cons,
        decide_True]
      split <;> simp
    · simp [find_first_not_of, hd, List.dropWhile_cons, List.takeWhile_cons]

theorem drop_length_takeWhile {α : Type} (p : α → Bool) (l : List α) :
    l.drop (l.takeWhile p).length = l.dropWhile p := by
  induction l with
  | nil => simp
  | cons a l ih =>
    by_cases h : p a <;> simp [List.takeWhile_cons, List.dropWhile_cons, h, ih]

theorem takeWhile_append_of_dropWhile_ne_nil {α : Type} (p : α → Bool) (l t : List α)
    (h : l.dropWhile p ≠ []) : (l ++ t).takeWhile p = l.takeWhile p := by
  induction l with
  | nil => simp at h
  | cons a l ih =>
    by_cases ha : p a
    · simp only [List.dropWhile_cons, ha, if_true] at h
      simp [List.takeWhile_cons, ha, ih h]
    · simp [List.takeWhile_cons, ha]

theorem dropWhile_reverse_ne_nil {α : Type} (p : α → Bool) (l : List α)
    (h : l.dropWhile p ≠ []) : l.reverse.dropWhile p ≠ [] := by
  intro hc
  apply h
  rw [List.dropWhile_eq_nil_iff] at hc ⊢
  intro x hx
  exact hc x (List.mem_reverse.mpr hx)

theorem dropWhile_dropWhile_ne_nil {α : Type} (p : α → Bool) (l : List α)
    (h : l.dropWhile p ≠ []) : (l.dropWhile p).dropWhile p ≠ [] := by
  rw [List.dropWhile_idempotent]; exact h

theorem trim_eq_trimRef (s : Str) : trim s = trimRef s := by
  unfold trim trimRef find_last_not_of
  rw [find_first_not_of_eq, find_first_not_of_eq]
  have hfun : (fun c => decide (c ∈ whitespace)) = isWs := rfl
  rw [hfun]
  by_cases h : s.dropWhile isWs = []
  · simp [h]
  · have hr : s.reverse.dropWhile isWs ≠ [] := dropWhile_reverse_ne_nil _ _ h
    have hd : (s.dropWhile isWs).reverse.dropWhile isWs ≠ [] :=
      dropWhile_reverse_ne_nil _ _ (dropWhile_dropWhile_ne_nil _ _ h)
    simp only [h, hr, if_false, Option.map_some', Option.getD_some]
    -- the pieces
    have hs : s = s.takeWhile isWs ++ s.dropWhile isWs := (List.takeWhile_append_dropWhile _ _).symm
    have hrev : s.reverse = (s.dropWhile isWs).reverse ++ (s.takeWhile isWs).reverse := by
      conv_lhs => rw [hs]
      simp
    have hb : (s.reverse.takeWhile isWs) = ((s.dropWhile isWs).reverse.takeWhile isWs) := by
      rw [hrev]
      exact takeWhile_append_of_dropWhile_ne_nil _ _ _ hd
    set d := s.dropWhile isWs with hdd
    set a := (s.takeWhile isWs).length with ha
    set b := (d.reverse.takeWhile isWs).length with hbdef
    have hlen : s.length = a + d.length := by
      conv_lhs => rw [hs]
      simp [ha]
    have hbd : b < d.length := by
      have h1 : d.reverse = d.reverse.takeWhile isWs ++ d.reverse.dropWhile isWs :=
        (List.takeWhile_append_dropWhile _ _).symm
      have h2 := congrArg List.length h1
      rw [List.length_append, ← hbdef] at h2
      have h3 : 0 < (d.reverse.dropWhile isWs).length := List.length_pos.mpr hd
      simp only [List.length_reverse] at h2
      omega
    rw [hb]
    have hsub : sizeSub (s.length - 1 - b) a + 1 = d.length - b := by
      unfold sizeSub
      rw [if_pos (by omega)]
      omega
    rw [hsub]
    unfold substr
    rw [drop_length_takeWhile]
    rw [← drop_length_takeWhile isWs d.reverse]
    rw [← hdd, ← hbdef]
    rw [List.drop_reverse, List.reverse_reverse]

theorem isWs_iff (c : Char) : isWs c = true ↔ c ∈ whitespace := by
  simp [isWs]

theorem trimRef_decomp (s : Str) :
    s = s.takeWhile isWs ++ trimRef s ++ ((s.dropWhile isWs).reverse.takeWhile isWs).reverse := by
  unfold trimRef
  rw [List.append_assoc, ← List.reverse_append, List.takeWhile_append_dropWhile,
    List.reverse_reverse, List.takeWhile_append_dropWhile]

theorem trimRef_eq_nil_iff (s : Str) : trimRef s = [] ↔ ∀ c ∈ s, c ∈ whitespace := by
  unfold trimRef
  rw [List.reverse_eq_nil_iff, List.dropWhile_eq_nil_iff]
  constructor
  · intro h c hc
    by_cases hw : isWs c = true
    · exact (isWs_iff c).mp hw
    · have hmem : c ∈ s.dropWhile isWs := by
        have hs := List.takeWhile_append_dropWhile isWs s
        rw [← hs] at hc
        rcases List.mem_append.mp hc with h1 | h1
        · exact absurd (List.mem_takeWhile_imp h1) hw
        · exact h1
      exact absurd (h c (List.mem_reverse.mpr hmem)) hw
  · intro h c hc
    have hc2 : c ∈ s := (List.dropWhile_sublist _).subset (List.mem_reverse.mp hc)
    exact (isWs_iff c).mpr (h c hc2)

theorem head?_dropWhile_isWs (l : Str) (c : Char) (h : (l.dropWhile isWs).head? = some c) :
    isWs c = false := by
  have := List.head?_dropWhile_not isWs l
  rw [h] at this
  exact this

theorem trimRef_getLast? (s : Str) (c : Char) (h : (trimRef s).getLast? = some c) :
    c ∉ whitespace := by
  unfold trimRef at h
  rw [List.getLast?_reverse] at h
  have := head?_dropWhile_isWs _ c h
  intro hc
  rw [(isWs_iff c).mpr hc] at this
  exact Bool.noConfusion this

theorem dropWhile_eq_trimRef_append (s : Str) :
    s.dropWhile isWs = trimRef s ++ ((s.dropWhile isWs).reverse.takeWhile isWs).reverse := by
  unfold trimRef
  rw [← List.reverse_append, List.takeWhile_append_dropWhile, List.reverse_reverse]

theorem trimRef_head? (s : Str) (c : Char) (h : (trimRef s).head? = some c) :
    c ∉ whitespace := by
  have hne : trimRef s ≠ [] := by
    intro hc
    rw [hc] at h
    exact Option.noConfusion h
  have hd : (s.dropWhile isWs).head? = some c := by
    rw [dropWhile_eq_trimRef_append, List.head?_append_of_ne_nil _ hne]
    exact h
  have := head?_dropWhile_isWs _ c hd
  intro hc
  rw [(isWs_iff c).mpr hc] at this
  exact Bool.noConfusion this

theorem trim_eq_self (s : Str) (a b : Char) (ha : s.head? = some a) (hb : s.getLast? = some b)
    (haw : a ∉ whitespace) (hbw : b ∉ whitespace) : trim s = s := by
  rw [trim_eq_trimRef]
  unfold trimRef
  have h1 : s.dropWhile isWs = s := by
    cases s with
    | nil => rfl
    | cons c t =>
      simp only [List.head?_cons, Option.some.injEq] at ha
      subst ha
      have : isWs c = false := by
        rw [← Bool.not_eq_true, isWs_iff]; exact haw
      simp [List.dropWhile_cons, this]
  rw [h1]
  have h2 : s.reverse.head? = some b := by
    rw [List.head?_reverse]; exact hb
  have h3 : s.reverse.dropWhile isWs = s.reverse := by
    cases hr : s.reverse with
    | nil => rfl
    | cons c t =>
      rw [hr] at h2
      simp only [List.head?_cons, Option.some.injEq] at h2
      subst h2
      have : isWs c = false := by
        rw [← Bool.not_eq_true, isWs_iff]; exact hbw
      simp [List.dropWhile_cons, this]
  rw [h3, List.reverse_reverse]

theorem trimLine_eq_trim (line : Str) : trimLine line = trim line := by
  unfold trim trimLine
  cases find_first_not_of whitespace line <;> rfl

/-- C9: `trim s` is `s` without its longest whitespace-only head part and tail
part: `s = p ++ trim s ++ q` with `p`, `q` made of space, tab, carriage return
and newline only; `trim s` is empty exactly when all of `s` is such characters,
and otherwise its first and last characters are none of the four. -/
theorem C9_trim_spec (s : Str) :
    ∃ p q : Str, s = p ++ trim s ++ q ∧
      (∀ c ∈ p, c = ' ' ∨ c = '\t' ∨ c = '\r' ∨ c = '\n') ∧
      (∀ c ∈ q, c = ' ' ∨ c = '\t' ∨ c = '\r' ∨ c = '\n') ∧
      (trim s = [] ↔ ∀ c ∈ s, c = ' ' ∨ c = '\t' ∨ c = '\r' ∨ c = '\n') ∧
      (∀ c, (trim s).head? = some c → ¬ (c = ' ' ∨ c = '\t' ∨ c = '\r' ∨ c = '\n')) ∧
      (∀ c, (trim s).getLast? = some c → ¬ (c = ' ' ∨ c = '\t' ∨ c = '\r' ∨ c = '\n')) := by
  have hw : ∀ c : Char, c ∈ whitespace ↔ (c = ' ' ∨ c = '\t' ∨ c = '\r' ∨ c = '\n') := by
    intro c
    simp [whitespace]
  rw [trim_eq_trimRef]
  refine ⟨s.takeWhile isWs, ((s.dropWhile isWs).reverse.takeWhile isWs).reverse,
    trimRef_decomp s, ?_, ?_, ?_, ?_, ?_⟩
  · intro c hc
    exact (hw c).mp ((isWs_iff c).mp (List.mem_takeWhile_imp hc))
  · intro c hc
    exact (hw c).mp ((isWs_iff c).mp (List.mem_takeWhile_imp (List.mem_reverse.mp hc)))
  · rw [trimRef_eq_nil_iff]
    exact forall_congr' (fun c => imp_congr_right (fun _ => hw c))
  · intro c hc hcw
    exact trimRef_head? s c hc ((hw c).mpr hcw)
  · intro c hc hcw
    exact trimRef_getLast? s c hc ((hw c).mpr hcw)

/-! ## Proofs: `formatNumber` -/

theorem substr_one_sizeSub_two (v : Str) (h : v ≠ []) :
    substr v 1 (sizeSub v.length 2) = (v.drop 1).dropLast := by
  cases v with
  | nil => exact absurd rfl h
  | cons a t =>
    cases t with
    | nil =>
      show List.take _ [] = _
      rw [List.take_nil]
      rfl
    | cons b u =>
      have h2 : sizeSub (a :: b :: u).length 2 = u.length := by
        unfold sizeSub
        rw [if_pos (by simp)]
        simp
      rw [h2, List.dropLast_eq_take]
      simp [substr]

theorem formatNumber_eq (v : Str) :
    formatNumber v =
      if unquote v ≠ [] ∧ (∀ c ∈ unquote v, '0' ≤ c ∧ c ≤ '9') then unquote v else [] := by
  have hdig : ∀ l : Str, l.all isdigit = true ↔ ∀ c ∈ l, '0' ≤ c ∧ c ≤ '9' := by
    intro l
    simp only [List.all_eq_true, isdigit, Char.isDigit, Bool.and_eq_true, decide_eq_true_eq]
    constructor
    · intro h c hc
      exact ⟨Char.le_def.mpr (h c hc).1, Char.le_def.mpr (h c hc).2⟩
    · intro h c hc
      exact ⟨Char.le_def.mp (h c hc).1, Char.le_def.mp (h c hc).2⟩
  have hres : (if (!v.isEmpty && v.head? == some '"' && v.getLast? == some '"') = true then
      substr v 1 (sizeSub v.length 2) else v) = unquote v := by
    unfold unquote
    cases v with
    | nil => simp
    | cons a t =>
      by_cases h1 : (a :: t).head? = some '"' ∧ (a :: t).getLast? = some '"'
      · rw [if_pos h1, if_pos (by simp [h1.1, h1.2])]
        exact substr_one_sizeSub_two _ (by simp)
      · rw [if_neg h1, if_neg]
        simp only [List.isEmpty_cons, Bool.not_false, Bool.true_and, Bool.and_eq_true,
          beq_iff_eq]
        exact h1
  unfold formatNumber
  simp only [hres]
  by_cases h : unquote v ≠ [] ∧ (∀ c ∈ unquote v, '0' ≤ c ∧ c ≤ '9')
  · rw [if_pos h, if_neg]
    simp only [Bool.or_eq_true, List.isEmpty_iff, Bool.not_eq_true', not_or]
    refine ⟨h.1, ?_⟩
    rw [Bool.not_eq_false]
    exact (hdig _).mpr h.2
  · rw [if_neg h, if_pos]
    simp only [Bool.or_eq_true, List.isEmpty_iff, Bool.not_eq_true']
    by_cases he : unquote v = []
    · exact Or.inl he
    · right
      rw [← Bool.not_eq_true]
      intro hall
      exact h ⟨he, (hdig _).mp hall⟩

theorem isdigit_iff (c : Char) : isdigit c = true ↔ '0' ≤ c ∧ c ≤ '9' := by
  simp only [isdigit, Char.isDigit, Bool.and_eq_true, decide_eq_true_eq]
  exact ⟨fun h => ⟨Char.le_def.mpr h.1, Char.le_def.mpr h.2⟩,
    fun h => ⟨Char.le_def.mp h.1, Char.le_def.mp h.2⟩⟩

theorem formatNumber_digits (W : Str) (hne : W ≠ []) (hd : ∀ c ∈ W, '0' ≤ c ∧ c ≤ '9') :
    formatNumber W = W := by
  unfold formatNumber
  cases W with
  | nil => exact absurd rfl hne
  | cons a t =>
    have ha : a ≠ '"' := by
      intro e
      have := hd a (List.mem_cons_self _ _)
      rw [e] at this
      exact absurd this (by decide)
    have hall : (a :: t).all isdigit = true := by
      rw [List.all_eq_true]
      intro c hc
      exact (isdigit_iff c).mpr (hd c hc)
    have hcond : (!(a :: t).isEmpty && (a :: t).head? == some '"' &&
        (a :: t).getLast? == some '"') = false := by
      simp [ha]
    simp only [hcond, Bool.false_eq_true, if_false, hall]
    rfl

/-- C7: `formatNumber v` is the unquoted value `unquote v` when that is a
non-empty string of decimal digits, and the empty string in every other case;
so the result is empty or a non-empty digit string.  The four values of the
specification and the lone double quote are evaluated as well. -/
theorem C7_formatNumber_spec (v : Str) :
    (formatNumber v =
      if unquote v ≠ [] ∧ (∀ c ∈ unquote v, '0' ≤ c ∧ c ≤ '9') then unquote v else []) ∧
    (formatNumber v = [] ∨
      (formatNumber v ≠ [] ∧ ∀ c ∈ formatNumber v, '0' ≤ c ∧ c ≤ '9')) ∧
    formatNumber "1900".toList = "1900".toList ∧
    formatNumber "".toList = "".toList ∧
    formatNumber "12a3".toList = "".toList ∧
    formatNumber "\"2400\"".toList = "2400".toList ∧
    formatNumber "\"".toList = "".toList := by
  refine ⟨formatNumber_eq v, ?_, by decide, by decide, by decide, by decide, by decide⟩
  rw [formatNumber_eq v]
  by_cases h : unquote v ≠ [] ∧ (∀ c ∈ unquote v, '0' ≤ c ∧ c ≤ '9')
  · rw [if_pos h]
    exact Or.inr h
  · rw [if_neg h]
    exact Or.inl rfl

/-! ## Proofs: `categorizeOpening` -/

theorem categorySwitch_toupper (c : Char) : categorySwitch (toupper c) = categoryTable c := by
  unfold toupper Char.toUpper
  by_cases h : c.toNat ≥ 97 ∧ c.toNat ≤ 122
  · have hc : c = Char.ofNat c.toNat := (Char.ofNat_toNat c).symm
    obtain ⟨h1, h2⟩ := h
    generalize c.toNat = n at *
    subst hc
    interval_cases n <;> decide
  · simp only [h, if_false]
    have ha : c ≠ 'a' := fun e => h (by subst e; decide)
    have hb : c ≠ 'b' := fun e => h (by subst e; decide)
    have hc : c ≠ 'c' := fun e => h (by subst e; decide)
    have hd : c ≠ 'd' := fun e => h (by subst e; decide)
    have he : c ≠ 'e' := fun e => h (by subst e; decide)
    simp only [categorySwitch, categoryTable, ha, hb, hc, hd, he, or_false]

theorem categorizeOpening_eq (code : Str) :
    categorizeOpening code =
      match trim code with
      | [] => "Unknown category".toList
      | c :: _ => categoryTable c := by
  unfold categorizeOpening
  cases code with
  | nil => rfl
  | cons a t =>
    simp only [List.isEmpty_cons, Bool.false_eq_true, if_false]
    cases trim (a :: t) with
    | nil => rfl
    | cons c r => exact categorySwitch_toupper c

/-- C8: `categorizeOpening code` looks only at the first character of
`trim code`: "Unknown category" when the trimmed code is empty, and the entry
of `categoryTable` for that character otherwise (A/a, B/b, C/c, D/d, E/e, any
other character unknown). -/
theorem C8_categorizeOpening_spec (code : Str) :
    (categorizeOpening code =
      match trim code with
      | [] => "Unknown category".toList
      | c :: _ => categoryTable c) ∧
    categorizeOpening "B90".toList = "Halboffene Eröffnung".toList ∧
    categorizeOpening "b90".toList = "Halboffene Eröffnung".toList ∧
    categorizeOpening "".toList = "Unknown category".toList ∧
    categorizeOpening "z99".toList = "Unknown category".toList :=
  ⟨categorizeOpening_eq code, by decide, by decide, by decide, by decide⟩

/-! ## Proofs: `escapeCSV` -/

theorem find_eq_none_iff (c : Char) (s : Str) : find c s = none ↔ c ∉ s := by
  induction s with
  | nil => simp [find]
  | cons d ds ih =>
    by_cases h : d = c
    · simp [find, h]
    · have h2 : ¬ c = d := fun e => h e.symm
      simp [find, h, h2, ih]

theorem find_isSome_iff (c : Char) (s : Str) : (find c s).isSome = true ↔ c ∈ s := by
  rw [← not_iff_not, Bool.not_eq_true, Option.not_isSome, Option.isNone_iff_eq_none,
    find_eq_none_iff]

theorem find_append_cons (c : Char) (pre rest : Str) (h : c ∉ pre) :
    find c (pre ++ c :: rest) = some pre.length := by
  induction pre with
  | nil => simp [find]
  | cons d ds ih =>
    have hd : d ≠ c := fun e => h (by simp [e])
    have hds : c ∉ ds := fun e => h (List.mem_cons_of_mem _ e)
    simp [find, hd, ih hds]

theorem escapeCSV_of_plain (x : Str) (h1 : ',' ∉ x) (h2 : '"' ∉ x) (h3 : '\n' ∉ x) :
    escapeCSV x = x := by
  unfold escapeCSV
  rw [(find_eq_none_iff _ _).mpr h1, (find_eq_none_iff _ _).mpr h2, (find_eq_none_iff _ _).mpr h3]
  rfl

/-- C10: a field that holds no comma, no double quote and no newline is
returned unchanged by `escapeCSV`, and so escaping it twice equals escaping it
once. -/
theorem C10_escapeCSV_plain_idempotent (x : Str) (h1 : ',' ∉ x) (h2 : '"' ∉ x) (h3 : '\n' ∉ x) :
    escapeCSV x = x ∧ escapeCSV (escapeCSV x) = escapeCSV x := by
  have h := escapeCSV_of_plain x h1 h2 h3
  exact ⟨h, by rw [h, h]⟩

/-- C10 at the field `Italian Game`. -/
theorem C10_escapeCSV_plain_idempotent_witness :
    (',' ∉ "Italian Game".toList ∧ '"' ∉ "Italian Game".toList ∧ '\n' ∉ "Italian Game".toList) ∧
    escapeCSV "Italian Game".toList = "Italian Game".toList ∧
    escapeCSV (escapeCSV "Italian Game".toList) = escapeCSV "Italian Game".toList :=
  ⟨by decide, C10_escapeCSV_plain_idempotent "Italian Game".toList (by decide) (by decide) (by decide)⟩

/-! ## Proofs: `parseGame`: when it succeeds -/

theorem HeaderMap.set_ne_nil (k v : Str) (m : HeaderMap) : HeaderMap.set k v m ≠ [] := by
  cases m with
  | nil => simp [HeaderMap.set]
  | cons kv m =>
    obtain ⟨k1, v1⟩ := kv
    unfold HeaderMap.set
    split <;> simp

theorem parseHeaderLine_eq_nil_iff (line : Str) (h : HeaderMap) :
    parseHeaderLine line h = [] ↔ h = [] ∧ ¬ isStoredTag line := by
  unfold parseHeaderLine isStoredTag
  by_cases ht : (line.head? == some '[' && line.getLast? == some ']') = true
  · rw [if_pos ht]
    simp only [Bool.and_eq_true, beq_iff_eq] at ht
    cases hf : find ' ' line with
    | none =>
      have : ' ' ∉ line := (find_eq_none_iff _ _).mp hf
      simp [this]
    | some i =>
      have : ' ' ∈ line := by
        rw [← find_isSome_iff, hf]; rfl
      simp only [ht.1, ht.2, this, and_self, not_true_eq_false, and_false, iff_false]
      exact HeaderMap.set_ne_nil _ _ _
  · rw [if_neg ht]
    simp only [Bool.and_eq_true, beq_iff_eq] at ht
    constructor
    · intro e
      exact ⟨e, fun hh => ht ⟨hh.1, hh.2.1⟩⟩
    · intro e
      exact e.1

theorem parseHeaders_eq_nil_iff (lines : List Str) (h : HeaderMap) :
    parseHeaders lines h = [] ↔
      h = [] ∧ ∀ l ∈ (lines.map trim).takeWhile (fun l => !l.isEmpty), ¬ isStoredTag l := by
  induction lines generalizing h with
  | nil => simp [parseHeaders]
  | cons raw rest ih =>
    unfold parseHeaders
    by_cases he : (trim raw).isEmpty = true
    · simp [he, List.takeWhile_cons]
    · rw [if_neg he, ih, parseHeaderLine_eq_nil_iff]
      simp only [Bool.not_eq_true] at he
      simp [List.takeWhile_cons, he, and_assoc]

theorem parseGame_fst (p : PGNParser) (text : Str) (data : GameData) :
    (parseGame p text data).1 = !(parseHeaders (getlines text) []).isEmpty := rfl

theorem parseGame_fst_iff (p : PGNParser) (text : Str) (data : GameData) :
    (parseGame p text data).1 = true ↔ ∃ line ∈ headerLines text, isStoredTag line := by
  rw [parseGame_fst]
  have h := parseHeaders_eq_nil_iff (getlines text) []
  simp only [true_and] at h
  rw [Bool.not_eq_true', ← Bool.not_eq_true, List.isEmpty_iff, h]
  unfold headerLines
  push_neg
  rfl

theorem parseGame_headers (p : PGNParser) (text : Str) (data : GameData) :
    (parseGame p text data).2.1.headers = parseHeaders (getlines text) [] := rfl

theorem parseGame_data (p : PGNParser) (text : Str) (data : GameData) :
    (parseGame p text data).2.2 =
      { gameNumber := data.gameNumber,
        whiteElo := getHeaderValue (parseGame p text data).2.1 "WhiteElo".toList,
        blackElo := getHeaderValue (parseGame p text data).2.1 "BlackElo".toList,
        eco := getHeaderValue (parseGame p text data).2.1 "ECO".toList,
        opening := getHeaderValue (parseGame p text data).2.1 "Opening".toList,
        event := getHeaderValue (parseGame p text data).2.1 "Event".toList,
        result := getHeaderValue (parseGame p text data).2.1 "Result".toList,
        openingCategory :=
          categorizeOpening (getHeaderValue (parseGame p text data).2.1 "ECO".toList) } := rfl

theorem parseGame_fresh (p : PGNParser) (text : Str) (n : Nat) :
    (parseGame p text (GameData.fresh n)).1 =
        (parseGame { headers := [] } text (GameData.fresh 0)).1 ∧
      (parseGame p text (GameData.fresh n)).2.2 =
        { (parseGame { headers := [] } text (GameData.fresh 0)).2.2 with gameNumber := n } :=
  ⟨rfl, rfl⟩

/-- C5: `parseGame` returns `true` exactly when one of the trimmed lines before
the first blank line starts with `[`, ends with `]` and holds a space; so it
returns `false` on the empty text, on a bracketed line without a space and on
unbracketed text. -/
theorem C5_parseGame_true_iff (p : PGNParser) (text : Str) (data : GameData) :
    ((parseGame p text data).1 = true ↔
      ∃ line ∈ ((getlines text).map trim).takeWhile (fun l => !l.isEmpty),
        line.head? = some '[' ∧ line.getLast? = some ']' ∧ ' ' ∈ line) ∧
    (parseGame p [] data).1 = false ∧
    (parseGame p "[KeyOnly]\n".toList data).1 = false ∧
    (parseGame p "1. e4 e5 2. Nf3\n".toList data).1 = false :=
  ⟨parseGame_fst_iff p text data, rfl, rfl, rfl⟩

/-! ## Proofs: `parseGame`: tag lines -/

theorem getlinesAux_append_newline (l cur rest : Str) (h : '\n' ∉ l) :
    getlinesAux cur (l ++ '\n' :: rest) = (cur ++ l) :: getlinesAux [] rest := by
  induction l generalizing cur with
  | nil => simp [getlinesAux]
  | cons c cs ih =>
    have hc : c ≠ '\n' := fun e => h (by simp [e])
    have hcs : '\n' ∉ cs := fun e => h (List.mem_cons_of_mem _ e)
    simp only [List.cons_append, getlinesAux, hc, if_false]
    show getlinesAux (cur ++ [c]) (cs ++ '\n' :: rest) = _
    rw [ih _ hcs]
    simp

theorem getlines_segment (lines : List Str) (h : ∀ l ∈ lines, '\n' ∉ l) :
    getlines (lines.flatMap (fun l => l ++ ['\n'])) = lines := by
  unfold getlines
  induction lines with
  | nil => rfl
  | cons l ls ih =>
    rw [List.flatMap_cons, List.append_assoc, List.singleton_append,
      getlinesAux_append_newline l [] _ (h l (List.mem_cons_self _ _)),
      ih (fun x hx => h x (List.mem_cons_of_mem _ hx))]
    rfl

theorem getlinesAux_no_newline (l cur : Str) (h : '\n' ∉ l) :
    getlinesAux cur l = if (cur ++ l).isEmpty then [] else [cur ++ l] := by
  induction l generalizing cur with
  | nil => simp [getlinesAux]
  | cons c cs ih =>
    have hc : c ≠ '\n' := fun e => h (by simp [e])
    have hcs : '\n' ∉ cs := fun e => h (List.mem_cons_of_mem _ e)
    simp only [getlinesAux, hc, if_false]
    rw [ih _ hcs]
    simp

theorem removeClosingBracket_append (w : Str) : removeClosingBracket (w ++ [']']) = w := by
  unfold removeClosingBracket
  have h1 : sizeSub (w ++ [']']).length 1 = w.length := by
    unfold sizeSub
    rw [if_pos (by simp)]
    simp
  rw [if_pos (by simp), h1]
  simp [substr]

theorem removeQuotes_quoted (V : Str) : removeQuotes (['"'] ++ V ++ ['"']) = V := by
  unfold removeQuotes
  have h1 : sizeSub (['"'] ++ V ++ ['"']).length 2 = V.length := by
    unfold sizeSub
    rw [if_pos (by simp)]
    simp
  have h2 : (['"'] ++ V ++ ['"']).getLast? = some '"' := List.getLast?_concat _
  rw [if_pos (by rw [h2]; simp), h1]
  simp [substr]

theorem tagLine_head? (K V : Str) : (tagLine K V).head? = some '[' := by
  simp [tagLine]

theorem tagLine_getLast? (K V : Str) : (tagLine K V).getLast? = some ']' :=
  List.getLast?_concat _

theorem trim_tagLine (K V : Str) : trim (tagLine K V) = tagLine K V :=
  trim_eq_self _ _ _ (tagLine_head? K V) (tagLine_getLast? K V) (by decide) (by decide)

theorem parseHeaderLine_tagLine (K V : Str) (h : HeaderMap) (hK : ' ' ∉ K) :
    parseHeaderLine (tagLine K V) h = HeaderMap.set K V h := by
  unfold parseHeaderLine
  rw [tagLine_head?, tagLine_getLast?]
  have hf : find ' ' (tagLine K V) = some (K.length + 1) := by
    have : tagLine K V = ('[' :: K) ++ ' ' :: (['"'] ++ V ++ ['"'] ++ [']']) := by
      simp [tagLine]
    rw [this, find_append_cons ' ' ('[' :: K) _ (by simp [hK])]
    simp
  rw [if_pos (by decide), hf]
  have hkey : substr (tagLine K V) 1 (sizeSub (K.length + 1) 1) = K := by
    have : sizeSub (K.length + 1) 1 = K.length := by
      unfold sizeSub
      rw [if_pos (by omega)]
      omega
    rw [this]
    simp [substr, tagLine]
  have hval : substrFrom (tagLine K V) (K.length + 1 + 1) = (['"'] ++ V ++ ['"']) ++ [']'] := by
    have : tagLine K V = ('[' :: K ++ [' ']) ++ ((['"'] ++ V ++ ['"']) ++ [']']) := by
      simp [tagLine]
    rw [this]
    unfold substrFrom
    rw [List.drop_left' (by simp)]
  simp only [hkey, hval, removeClosingBracket_append, removeQuotes_quoted]

theorem tagLine_no_newline (K V : Str) (hK : '\n' ∉ K) (hV : '\n' ∉ V) :
    '\n' ∉ tagLine K V := by
  simp [tagLine, hK, hV]

theorem tagLine_ne_nil (K V : Str) : tagLine K V ≠ [] := by
  simp [tagLine]

theorem parseHeaders_single_tagLine (K V : Str) (hK : ' ' ∉ K) :
    parseHeaders [tagLine K V] [] = [(K, V)] := by
  unfold parseHeaders
  rw [trim_tagLine, if_neg (by simp [tagLine]), parseHeaderLine_tagLine K V [] hK]
  rfl

theorem getHeaderValue_single (K V : Str) : getHeaderValue { headers := [(K, V)] } K = V := by
  simp [getHeaderValue, HeaderMap.find]

/-- C6: parsing the text that holds the one line `[K "V"]` (with or without
its line end), for a key without space or newline and a value without
newline, leaves exactly the mapping `K -> V` in the header map, so each of
the six named fields whose key is `K` equals `V`. -/
theorem C6_tagLine_roundtrip (p : PGNParser) (data : GameData) (K V : Str)
    (hK : ' ' ∉ K) (hKn : '\n' ∉ K) (hV : '\n' ∉ V) :
    ∀ text, (text = tagLine K V ++ ['\n'] ∨ text = tagLine K V) →
      (parseGame p text data).1 = true ∧
      (parseGame p text data).2.1.headers = [(K, V)] ∧
      getHeaderValue (parseGame p text data).2.1 K = V ∧
      (K = "WhiteElo".toList → (parseGame p text data).2.2.whiteElo = V) ∧
      (K = "BlackElo".toList → (parseGame p text data).2.2.blackElo = V) ∧
      (K = "ECO".toList → (parseGame p text data).2.2.eco = V) ∧
      (K = "Opening".toList → (parseGame p text data).2.2.opening = V) ∧
      (K = "Event".toList → (parseGame p text data).2.2.event = V) ∧
      (K = "Result".toList → (parseGame p text data).2.2.result = V) := by
  intro text htext
  have hlines : getlines text = [tagLine K V] := by
    rcases htext with e | e
    · subst e
      have := getlines_segment [tagLine K V]
        (by intro l hl; rw [List.mem_singleton] at hl; subst hl
            exact tagLine_no_newline K V hKn hV)
      simpa using this
    · subst e
      unfold getlines
      rw [getlinesAux_no_newline _ _ (tagLine_no_newline K V hKn hV)]
      simp [tagLine_ne_nil]
  have hh : (parseGame p text data).2.1 = { headers := [(K, V)] } := by
    show ({ headers := parseHeaders (getlines text) [] } : PGNParser) = _
    rw [hlines, parseHeaders_single_tagLine K V hK]
  have hv := getHeaderValue_single K V
  rw [parseGame_data, hh]
  refine ⟨?_, rfl, hv, ?_, ?_, ?_, ?_, ?_, ?_⟩
  · rw [parseGame_fst, hlines, parseHeaders_single_tagLine K V hK]; rfl
  all_goals
    intro e
    subst e
    exact hv

/-- C6 at the line `[Event "City, "x" [y]"]`. -/
theorem C6_tagLine_roundtrip_witness :
    (' ' ∉ "Event".toList ∧ '\n' ∉ "Event".toList ∧ '\n' ∉ "City, \"x\" [y]".toList) ∧
    (parseGame { headers := [] } "[Event \"City, \"x\" [y]\"]\n".toList
      (GameData.fresh 0)).2.1.headers = [("Event".toList, "City, \"x\" [y]".toList)] ∧
    (parseGame { headers := [] } "[Event \"City, \"x\" [y]\"]\n".toList
      (GameData.fresh 0)).2.2.event = "City, \"x\" [y]".toList :=
  ⟨by decide,
   (C6_tagLine_roundtrip { headers := [] } (GameData.fresh 0) "Event".toList
      "City, \"x\" [y]".toList (by decide) (by decide) (by decide) _ (Or.inl rfl)).2.1,
   (C6_tagLine_roundtrip { headers := [] } (GameData.fresh 0) "Event".toList
      "City, \"x\" [y]".toList (by decide) (by decide) (by decide) _
      (Or.inl rfl)).2.2.2.2.2.2.2.1 rfl⟩

/-! ## Proofs: the loop of `main` -/

theorem segmentsFrom_eq (cur lines : List Str) :
    segmentsFrom cur lines =
      ((lines.splitOnP isBlank).modifyHead (fun r => cur ++ r)).filter (fun run => !run.isEmpty) := by
  induction lines generalizing cur with
  | nil =>
    cases cur <;> simp [segmentsFrom, List.splitOnP_nil, List.modifyHead]
  | cons l ls ih =>
    rw [List.splitOnP_cons]
    unfold segmentsFrom
    by_cases hb : isBlank l = true
    · rw [if_pos hb, if_pos hb]
      have h0 := ih []
      have hid : (fun r : List Str => ([] : List Str) ++ r) = id := by
        funext r; simp
      rw [hid] at h0
      have hid2 : ∀ x : List (List Str), List.modifyHead id x = x := by
        intro x; cases x <;> rfl
      rw [hid2] at h0
      cases cur with
      | nil => simp [h0, List.modifyHead]
      | cons c cs => simp [h0, List.modifyHead]
    · rw [if_neg hb, if_neg hb, ih, List.modifyHead_modifyHead]
      congr 2
      funext r
      simp

theorem segmentsFrom_nil (lines : List Str) : segmentsFrom [] lines = segments lines := by
  rw [segmentsFrom_eq]
  unfold segments
  have hid : (fun r : List Str => ([] : List Str) ++ r) = id := by
    funext r; simp
  rw [hid]
  cases lines.splitOnP isBlank <;> rfl

theorem mainStep_blank (s : MainState) (line : Str) (h : isBlank line = true) :
    mainStep s line =
      if (s.inGame && !s.currentGame.isEmpty) = true then
        if (parseGame s.parser s.currentGame (GameData.fresh s.gameNumber)).1 = true then
          { parser := (parseGame s.parser s.currentGame (GameData.fresh s.gameNumber)).2.1,
            currentGame := [], gameNumber := s.gameNumber + 1, inGame := false,
            outFile := s.outFile ++
              [writeRow (parseGame s.parser s.currentGame (GameData.fresh s.gameNumber)).2.2] }
        else
          { parser := (parseGame s.parser s.currentGame (GameData.fresh s.gameNumber)).2.1,
            currentGame := [], gameNumber := s.gameNumber, inGame := false,
            outFile := s.outFile }
      else s := by
  unfold isBlank at h
  unfold mainStep
  simp only []
  rw [trimLine_eq_trim, if_pos h]
  by_cases hg : (s.inGame && !s.currentGame.isEmpty) = true
  · rw [if_pos hg, if_pos hg]
    by_cases hok : (parseGame s.parser s.currentGame (GameData.fresh s.gameNumber)).1 = true
    · rw [if_pos hok, if_pos hok]
    · rw [if_neg hok, if_neg hok]
  · rw [if_neg hg, if_neg hg]

theorem mainStep_nonblank (s : MainState) (line : Str) (h : isBlank line = false) :
    mainStep s line =
      { s with currentGame := s.currentGame ++ (line ++ ['\n']), inGame := true } := by
  unfold isBlank at h
  unfold mainStep
  simp only []
  rw [trimLine_eq_trim, if_neg (by rw [h]; simp)]

theorem mainFinish_eq (s : MainState) :
    mainFinish s =
      if (s.inGame && !s.currentGame.isEmpty) = true then
        if (parseGame s.parser s.currentGame (GameData.fresh s.gameNumber)).1 = true then
          { parser := (parseGame s.parser s.currentGame (GameData.fresh s.gameNumber)).2.1,
            currentGame := s.currentGame, gameNumber := s.gameNumber, inGame := s.inGame,
            outFile := s.outFile ++
              [writeRow (parseGame s.parser s.currentGame (GameData.fresh s.gameNumber)).2.2] }
        else
          { parser := (parseGame s.parser s.currentGame (GameData.fresh s.gameNumber)).2.1,
            currentGame := s.currentGame, gameNumber := s.gameNumber, inGame := s.inGame,
            outFile := s.outFile }
      else s := by
  unfold mainFinish
  simp only []

theorem segmentText_isEmpty (cur : List Str) : (segmentText cur).isEmpty = cur.isEmpty := by
  cases cur with
  | nil => rfl
  | cons l ls => simp [segmentText, List.flatMap_cons]

theorem segmentText_append (cur : List Str) (l : Str) :
    segmentText (cur ++ [l]) = segmentText cur ++ (l ++ ['\n']) := by
  simp [segmentText, List.flatMap_append]

theorem numberedRows_cons (n : Nat) (d : GameData) (ds : List GameData) :
    numberedRows n (d :: ds) = writeRow { d with gameNumber := n } :: numberedRows (n + 1) ds := by
  simp [numberedRows, List.enumFrom_cons]

theorem LoopInv_init : LoopInv MainState.init [] 0 [] := ⟨rfl, rfl, rfl, rfl⟩

theorem LoopInv_nonblank (s : MainState) (cur : List Str) (n : Nat) (out : List Str)
    (line : Str) (h : LoopInv s cur n out) (hb : isBlank line = false) :
    LoopInv (mainStep s line) (cur ++ [line]) n out := by
  obtain ⟨h1, h2, h3, h4⟩ := h
  rw [mainStep_nonblank s line hb]
  refine ⟨?_, ?_, h3, h4⟩
  · show s.currentGame ++ (line ++ ['\n']) = _
    rw [h1, segmentText_append]
  · simp

theorem LoopInv_blank_nil (s : MainState) (n : Nat) (out : List Str)
    (line : Str) (h : LoopInv s [] n out) (hb : isBlank line = true) :
    LoopInv (mainStep s line) [] n out := by
  rw [mainStep_blank s line hb, if_neg]
  · exact h
  · rw [h.2.1]; simp

theorem LoopInv_blank_cons (s : MainState) (cur : List Str) (n : Nat) (out : List Str)
    (line : Str) (h : LoopInv s cur n out) (hc : cur ≠ []) (hb : isBlank line = true) :
    LoopInv (mainStep s line) [] (afterRun cur n out).1 (afterRun cur n out).2 := by
  obtain ⟨h1, h2, h3, h4⟩ := h
  have hg : (s.inGame && !s.currentGame.isEmpty) = true := by
    rw [h2, h1, segmentText_isEmpty]
    cases cur with
    | nil => exact absurd rfl hc
    | cons a t => rfl
  rw [mainStep_blank s line hb, if_pos hg]
  obtain ⟨e1, e2⟩ := parseGame_fresh s.parser s.currentGame s.gameNumber
  rw [e1, e2, h1, h3, h4]
  unfold afterRun parseRun
  simp only []
  by_cases hok : (parseGame { headers := [] } (segmentText cur) (GameData.fresh 0)).1 = true
  · rw [if_pos hok, if_pos hok]
    exact ⟨rfl, rfl, rfl, rfl⟩
  · rw [if_neg hok, if_neg hok]
    exact ⟨rfl, rfl, rfl, rfl⟩

theorem mainFinish_outFile (s : MainState) (cur : List Str) (n : Nat) (out : List Str)
    (h : LoopInv s cur n out) :
    (mainFinish s).outFile = if cur.isEmpty then out else (afterRun cur n out).2 := by
  obtain ⟨h1, h2, h3, h4⟩ := h
  rw [mainFinish_eq]
  cases cur with
  | nil =>
    rw [if_neg (by rw [h2]; simp)]
    exact h4
  | cons a t =>
    have hg : (s.inGame && !s.currentGame.isEmpty) = true := by
      rw [h2, h1, segmentText_isEmpty]; rfl
    rw [if_pos hg]
    obtain ⟨e1, e2⟩ := parseGame_fresh s.parser s.currentGame s.gameNumber
    rw [e1, e2, h1, h3, h4]
    unfold afterRun parseRun
    simp only []
    by_cases hok : (parseGame { headers := [] } (segmentText (a :: t)) (GameData.fresh 0)).1 = true
    · rw [if_pos hok, if_pos hok]
      rfl
    · rw [if_neg hok, if_neg hok]
      rfl

theorem afterRun_rows (cur : List Str) (n : Nat) (out : List Str) (rest : List GameData) :
    (afterRun cur n out).2 ++ numberedRows (afterRun cur n out).1 rest =
      out ++ numberedRows n ((parseRun cur).toList ++ rest) := by
  unfold afterRun
  cases parseRun cur with
  | none => rfl
  | some d => simp [numberedRows_cons]

theorem mainLoop_rows (lines : List Str) (s : MainState) (cur : List Str) (n : Nat)
    (out : List Str) (h : LoopInv s cur n out) :
    (mainFinish (lines.foldl mainStep s)).outFile =
      out ++ numberedRows n ((segmentsFrom cur lines).filterMap parseRun) := by
  induction lines generalizing s cur n out with
  | nil =>
    rw [List.foldl_nil, mainFinish_outFile s cur n out h]
    unfold segmentsFrom
    cases hc : cur.isEmpty with
    | true => simp [numberedRows]
    | false =>
      have := afterRun_rows cur n out []
      simp only [numberedRows, List.enumFrom_nil, List.map_nil, List.append_nil] at this
      simp only [Bool.false_eq_true, if_false, List.filterMap_cons, List.filterMap_nil]
      rw [this]
      cases parseRun cur <;> rfl
  | cons l ls ih =>
    rw [List.foldl_cons]
    unfold segmentsFrom
    cases hb : isBlank l with
    | false =>
      rw [if_neg (by simp)]
      exact ih _ _ _ _ (LoopInv_nonblank s cur n out l h hb)
    | true =>
      rw [if_pos rfl]
      cases cur with
      | nil =>
        simp only [List.isEmpty_nil, if_true]
        exact ih _ _ _ _ (LoopInv_blank_nil s n out l h hb)
      | cons a t =>
        rw [if_neg (by simp)]
        rw [ih _ _ _ _ (LoopInv_blank_cons s (a :: t) n out l h (by simp) hb)]
        rw [afterRun_rows]
        cases hp : parseRun (a :: t) <;> simp [List.filterMap_cons, hp]

theorem dataRows_eq (lines : List Str) :
    dataRows lines = numberedRows 0 ((segmentsFrom [] lines).filterMap parseRun) := by
  unfold dataRows mainRun
  rw [mainLoop_rows lines MainState.init [] 0 [] LoopInv_init]
  rfl

theorem numberedRows_length (n : Nat) (games : List GameData) :
    (numberedRows n games).length = games.length := by
  simp [numberedRows]

theorem length_filterMap_parseRun (runs : List (List Str)) :
    (runs.filterMap parseRun).length =
      runs.countP (fun run =>
        (parseGame { headers := [] } (segmentText run) (GameData.fresh 0)).1) := by
  induction runs with
  | nil => rfl
  | cons r rs ih =>
    rw [List.filterMap_cons, List.countP_cons, ← ih]
    unfold parseRun
    simp only []
    cases (parseGame { headers := [] } (segmentText r) (GameData.fresh 0)).1 <;> simp

/-- C1: the data rows written by the loop of `main` are the rows of the
reference: one row for each maximal run of non-blank lines whose text
`parseGame` accepts, in input order, the i-th such run carrying game number i;
so there are as many rows as runs that parse. -/
theorem C1_dataRows_eq_referenceRows (lines : List Str) :
    dataRows lines = referenceRows lines ∧
    (dataRows lines).length =
      (segments lines).countP (fun run =>
        (parseGame { headers := [] } (segmentText run) (GameData.fresh 0)).1) := by
  have h : dataRows lines = referenceRows lines := by
    rw [dataRows_eq, segmentsFrom_nil]
    rfl
  refine ⟨h, ?_⟩
  rw [h]
  unfold referenceRows
  rw [numberedRows_length, length_filterMap_parseRun]

/-! ## Proofs: game numbers -/

theorem digitChar_mod_ten_isDigit (n : Nat) : (Nat.digitChar (n % 10)).isDigit = true := by
  have h : n % 10 < 10 := Nat.mod_lt _ (by decide)
  generalize n % 10 = m at h
  interval_cases m <;> decide

theorem toDigitsCore_isDigit (fuel n : Nat) (ds : List Char)
    (h : ∀ c ∈ ds, c.isDigit = true) : ∀ c ∈ Nat.toDigitsCore 10 fuel n ds, c.isDigit = true := by
  induction fuel generalizing n ds with
  | zero => exact h
  | succ f ih =>
    unfold Nat.toDigitsCore
    have hcons : ∀ c ∈ Nat.digitChar (n % 10) :: ds, c.isDigit = true := by
      intro c hc
      rcases List.mem_cons.mp hc with e | e
      · rw [e]; exact digitChar_mod_ten_isDigit n
      · exact h c e
    simp only []
    split
    · exact hcons
    · exact ih _ _ hcons

theorem toDigits_isDigit (n : Nat) : ∀ c ∈ Nat.toDigits 10 n, c.isDigit = true :=
  toDigitsCore_isDigit _ _ _ (by simp)

theorem comma_not_mem_toDigits (n : Nat) : ',' ∉ Nat.toDigits 10 n := by
  intro h
  have := toDigits_isDigit n _ h
  exact absurd this (by decide)

theorem takeWhile_ne_append_cons (c : Char) (pre rest : Str) (h : c ∉ pre) :
    (pre ++ c :: rest).takeWhile (fun x => x != c) = pre := by
  induction pre with
  | nil => simp [List.takeWhile_cons]
  | cons d ds ih =>
    have hd : d ≠ c := fun e => h (by simp [e])
    have hds : c ∉ ds := fun e => h (List.mem_cons_of_mem _ e)
    simp [List.takeWhile_cons, hd, ih hds]

theorem gameNumberField_writeRow (d : GameData) :
    gameNumberField (writeRow d) = Nat.toDigits 10 d.gameNumber := by
  unfold gameNumberField writeRow
  simp only [List.append_assoc, List.singleton_append]
  exact takeWhile_ne_append_cons ',' _ _ (comma_not_mem_toDigits _)

theorem numberedRows_fields (n : Nat) (games : List GameData) :
    (numberedRows n games).map gameNumberField =
      (List.range' n games.length).map (Nat.toDigits 10) := by
  induction games generalizing n with
  | nil => rfl
  | cons d ds ih =>
    rw [numberedRows_cons, List.map_cons, gameNumberField_writeRow, ih]
    rfl

/-- C2: the game-number fields of the data rows, in output order, are the
decimal texts of 0, 1, ..., k-1, where k is the number of rows. -/
theorem C2_gameNumbers_sequential (lines : List Str) :
    (dataRows lines).map gameNumberField =
      (List.range (dataRows lines).length).map (Nat.toDigits 10) := by
  rw [dataRows_eq, numberedRows_fields, numberedRows_length, List.range_eq_range']

/-! ## Proofs: a game of six tag lines -/

theorem isBlank_tagLine (K V : Str) : isBlank (tagLine K V) = false := by
  unfold isBlank
  rw [trim_tagLine]
  simp [tagLine]

theorem parseHeaders_tagLine_cons (K V : Str) (rest : List Str) (h : HeaderMap)
    (hK : ' ' ∉ K) :
    parseHeaders (tagLine K V :: rest) h = parseHeaders rest (HeaderMap.set K V h) := by
  conv_lhs => unfold parseHeaders
  rw [trim_tagLine, if_neg (by simp [tagLine]), parseHeaderLine_tagLine K V h hK]

theorem parseHeaders_sixTagLines (E W B C O R : Str) :
    parseHeaders (sixTagLines E W B C O R) [] =
      [("Event".toList, E), ("WhiteElo".toList, W), ("BlackElo".toList, B),
       ("ECO".toList, C), ("Opening".toList, O), ("Result".toList, R)] := by
  unfold sixTagLines
  rw [parseHeaders_tagLine_cons _ _ _ _ (by decide), parseHeaders_tagLine_cons _ _ _ _ (by decide),
    parseHeaders_tagLine_cons _ _ _ _ (by decide), parseHeaders_tagLine_cons _ _ _ _ (by decide),
    parseHeaders_tagLine_cons _ _ _ _ (by decide), parseHeaders_tagLine_cons _ _ _ _ (by decide)]
  rfl

theorem sixTagLines_no_newline (E W B C O R : Str) (hE : '\n' ∉ E) (hW : '\n' ∉ W)
    (hB : '\n' ∉ B) (hC : '\n' ∉ C) (hO : '\n' ∉ O) (hR : '\n' ∉ R) :
    ∀ l ∈ sixTagLines E W B C O R, '\n' ∉ l := by
  intro l hl
  simp only [sixTagLines, List.mem_cons, List.mem_singleton, List.not_mem_nil, or_false] at hl
  rcases hl with e | e | e | e | e | e <;> subst e
  · exact tagLine_no_newline _ _ (by decide) hE
  · exact tagLine_no_newline _ _ (by decide) hW
  · exact tagLine_no_newline _ _ (by decide) hB
  · exact tagLine_no_newline _ _ (by decide) hC
  · exact tagLine_no_newline _ _ (by decide) hO
  · exact tagLine_no_newline _ _ (by decide) hR

theorem parseRun_sixTagLines (E W B C O R : Str) (hE : '\n' ∉ E) (hW : '\n' ∉ W)
    (hB : '\n' ∉ B) (hC : '\n' ∉ C) (hO : '\n' ∉ O) (hR : '\n' ∉ R) :
    parseRun (sixTagLines E W B C O R) =
      some { gameNumber := 0, whiteElo := W, blackElo := B, eco := C, opening := O,
             event := E, result := R, openingCategory := categorizeOpening C } := by
  have hh : parseHeaders (getlines (segmentText (sixTagLines E W B C O R))) [] =
      [("Event".toList, E), ("WhiteElo".toList, W), ("BlackElo".toList, B),
       ("ECO".toList, C), ("Opening".toList, O), ("Result".toList, R)] := by
    unfold segmentText
    rw [getlines_segment _ (sixTagLines_no_newline E W B C O R hE hW hB hC hO hR),
      parseHeaders_sixTagLines]
  unfold parseRun parseGame
  simp only [hh]
  rfl

theorem segmentsFrom_sixTagLines (E W B C O R : Str) :
    segmentsFrom [] (sixTagLines E W B C O R ++ [[]]) = [sixTagLines E W B C O R] := by
  have hb : isBlank [] = true := by decide
  simp [sixTagLines, segmentsFrom, isBlank_tagLine, hb]

/-- C3: six tag lines Event, WhiteElo, BlackElo, ECO, Opening, Result with
newline-free values, the two ratings non-empty digit strings, followed by one
blank line, give exactly one data row: the comma-join of `0`, the ratings,
the opening code, the escaped opening and event names, the result and the
category of the code. -/
theorem C3_six_tag_game (E W B C O R : Str) (hE : '\n' ∉ E) (hW : '\n' ∉ W)
    (hB : '\n' ∉ B) (hC : '\n' ∉ C) (hO : '\n' ∉ O) (hR : '\n' ∉ R)
    (hWd : W ≠ [] ∧ ∀ c ∈ W, '0' ≤ c ∧ c ≤ '9') (hBd : B ≠ [] ∧ ∀ c ∈ B, '0' ≤ c ∧ c ≤ '9') :
    dataRows (sixTagLines E W B C O R ++ [[]]) =
      ["0".toList ++ [','] ++ W ++ [','] ++ B ++ [','] ++ C ++ [','] ++ escapeCSV O ++ [','] ++
        escapeCSV E ++ [','] ++ R ++ [','] ++ categorizeOpening C] := by
  rw [dataRows_eq, segmentsFrom_sixTagLines, List.filterMap_cons,
    parseRun_sixTagLines E W B C O R hE hW hB hC hO hR]
  simp only [List.filterMap_nil, numberedRows, List.enumFrom_cons, List.enumFrom_nil,
    List.map_cons, List.map_nil, writeRow]
  rw [formatNumber_digits W hWd.1 hWd.2, formatNumber_digits B hBd.1 hBd.2]
  rfl

/-- C3 at the game of the Test Cup: the one row is
`0,2000,2100,C50,Italian Game,Test Cup,1-0,Offene Eröffnung`. -/
theorem C3_six_tag_game_witness :
    dataRows ["[Event \"Test Cup\"]".toList, "[WhiteElo \"2000\"]".toList,
      "[BlackElo \"2100\"]".toList, "[ECO \"C50\"]".toList,
      "[Opening \"Italian Game\"]".toList, "[Result \"1-0\"]".toList, "".toList] =
      ["0,2000,2100,C50,Italian Game,Test Cup,1-0,Offene Eröffnung".toList] :=
  (C3_six_tag_game "Test Cup".toList "2000".toList "2100".toList "C50".toList
    "Italian Game".toList "1-0".toList (by decide) (by decide) (by decide) (by decide)
    (by decide) (by decide) (by decide) (by decide)).trans (by decide)

/-! ## Proofs: the field count of a row -/

theorem csvSplitAux_plain (q : Bool) (cur pre rest : Str) (h : isPlainField pre) :
    csvSplitAux q cur (pre ++ rest) = csvSplitAux q (cur ++ pre) rest := by
  induction pre generalizing cur with
  | nil => simp
  | cons c cs ih =>
    have hc1 : c ≠ ',' := fun e => h.1 (by simp [e])
    have hc2 : c ≠ '"' := fun e => h.2 (by simp [e])
    have hcs : isPlainField cs :=
      ⟨fun e => h.1 (List.mem_cons_of_mem _ e), fun e => h.2 (List.mem_cons_of_mem _ e)⟩
    rw [List.cons_append, csvSplitAux, if_neg hc2, if_neg (by simp [hc1]), ih _ hcs,
      List.append_assoc]
    rfl

theorem csvSplitAux_escapeLoop (cur f rest : Str) :
    csvSplitAux true cur (escapeLoop f ++ rest) = csvSplitAux true (cur ++ escapeLoop f) rest := by
  induction f generalizing cur with
  | nil => simp [escapeLoop]
  | cons c cs ih =>
    unfold escapeLoop
    by_cases hc : c = '"'
    · rw [if_pos hc]
      simp only [List.cons_append]
      rw [csvSplitAux, if_pos rfl, csvSplitAux, if_pos rfl]
      simp only [Bool.not_true, Bool.not_false]
      rw [ih]
      simp
    · rw [if_neg hc]
      simp only [List.cons_append]
      rw [csvSplitAux, if_neg hc, if_neg (by simp), ih]
      simp

theorem csvSplitAux_escapeCSV (cur f rest : Str) :
    csvSplitAux false cur (escapeCSV f ++ rest) = csvSplitAux false (cur ++ escapeCSV f) rest := by
  unfold escapeCSV
  split
  · simp only [List.append_assoc, List.singleton_append, List.cons_append, List.nil_append]
    rw [csvSplitAux, if_pos rfl]
    simp only [Bool.not_false]
    rw [csvSplitAux_escapeLoop, csvSplitAux, if_pos rfl]
    simp
  · rename_i h
    simp only [Bool.or_eq_true, not_or, Bool.not_eq_true, Option.not_isSome,
      Option.isNone_iff_eq_none, find_eq_none_iff] at h
    exact csvSplitAux_plain _ _ _ _ ⟨h.1.1, h.1.2⟩

theorem csvSplitAux_comma (cur rest : Str) :
    csvSplitAux false cur (',' :: rest) = cur :: csvSplitAux false [] rest := by
  rw [csvSplitAux, if_neg (by decide), if_pos ⟨rfl, rfl⟩]

theorem isPlainField_toDigits (n : Nat) : isPlainField (Nat.toDigits 10 n) :=
  ⟨comma_not_mem_toDigits n, fun h => absurd (toDigits_isDigit n _ h) (by decide)⟩

theorem isPlainField_formatNumber (v : Str) : isPlainField (formatNumber v) := by
  rw [formatNumber_eq]
  split
  · rename_i h
    exact ⟨fun hm => absurd (h.2 _ hm) (by decide), fun hm => absurd (h.2 _ hm) (by decide)⟩
  · exact ⟨by simp, by simp⟩

theorem isPlainField_categoryTable (c : Char) : isPlainField (categoryTable c) := by
  unfold categoryTable
  repeat' split
  all_goals exact ⟨by decide, by decide⟩

theorem isPlainField_categorizeOpening (eco : Str) : isPlainField (categorizeOpening eco) := by
  rw [categorizeOpening_eq]
  split
  · exact ⟨by decide, by decide⟩
  · exact isPlainField_categoryTable _

theorem csvFields_writeRow_of_plain (d : GameData) (he : isPlainField d.eco)
    (hr : isPlainField d.result) (hc : isPlainField d.openingCategory) :
    (csvFields (writeRow d)).length = 8 := by
  unfold csvFields writeRow
  simp only [List.append_assoc, List.singleton_append, List.cons_append, List.nil_append]
  rw [csvSplitAux_plain _ _ _ _ (isPlainField_toDigits _), csvSplitAux_comma,
    csvSplitAux_plain _ _ _ _ (isPlainField_formatNumber _), csvSplitAux_comma,
    csvSplitAux_plain _ _ _ _ (isPlainField_formatNumber _), csvSplitAux_comma,
    csvSplitAux_plain _ _ _ _ he, csvSplitAux_comma,
    csvSplitAux_escapeCSV, csvSplitAux_comma,
    csvSplitAux_escapeCSV, csvSplitAux_comma,
    csvSplitAux_plain _ _ _ _ hr, csvSplitAux_comma]
  have := csvSplitAux_plain false [] d.openingCategory [] hc
  rw [List.append_nil] at this
  rw [this]
  rfl

theorem parseRun_openingCategory (run : List Str) (d : GameData) (h : parseRun run = some d) :
    d.openingCategory = categorizeOpening d.eco := by
  unfold parseRun at h
  simp only [] at h
  split at h
  · rw [parseGame_data] at h
    simp only [Option.some.injEq] at h
    rw [← h]
  · exact Option.noConfusion h

theorem mem_numberedRows (n : Nat) (games : List GameData) (row : Str)
    (h : row ∈ numberedRows n games) :
    ∃ d ∈ games, ∃ i, row = writeRow { d with gameNumber := i } := by
  induction games generalizing n with
  | nil => simp [numberedRows] at h
  | cons g gs ih =>
    rw [numberedRows_cons] at h
    rcases List.mem_cons.mp h with e | e
    · exact ⟨g, List.mem_cons_self _ _, n, e⟩
    · obtain ⟨d, hd, i, hi⟩ := ih _ e
      exact ⟨d, List.mem_cons_of_mem _ hd, i, hi⟩

/-- Every data row reads as a CSV record of eight fields as long as the
opening code and the result of each parsed game hold no comma and no double
quote (the two values that `main` writes without `escapeCSV`). -/
theorem csvFields_dataRows_of_plain (lines : List Str)
    (h : ∀ d ∈ (segments lines).filterMap parseRun, isPlainField d.eco ∧ isPlainField d.result) :
    ∀ row ∈ dataRows lines, (csvFields row).length = 8 := by
  intro row hrow
  rw [dataRows_eq, segmentsFrom_nil] at hrow
  obtain ⟨d, hd, i, hi⟩ := mem_numberedRows _ _ _ hrow
  obtain ⟨run, _, hrun⟩ := List.mem_filterMap.mp hd
  have hcat := parseRun_openingCategory run d hrun
  rw [hi]
  refine csvFields_writeRow_of_plain _ (h d hd).1 (h d hd).2 ?_
  show isPlainField d.openingCategory
  rw [hcat]
  exact isPlainField_categorizeOpening _

/-- C4 at the input whose only line is `[ECO "A,B"]`: the opening code is
written as it is, so the one data row is `0,,,A,B,,,,Flankeneröffnung` and
reads as a CSV record of nine fields. -/
theorem C4_raw_eco_breaks_field_count :
    dataRows ["[ECO \"A,B\"]".toList] = ["0,,,A,B,,,,Flankeneröffnung".toList] ∧
    (dataRows ["[ECO \"A,B\"]".toList]).map (fun row => (csvFields row).length) = [9] := by
  decide

/-! ## Proofs: `escapeCSV` is injective -/

theorem escapeLoop_injective (x y : Str) (h : escapeLoop x = escapeLoop y) : x = y := by
  induction x generalizing y with
  | nil =>
    cases y with
    | nil => rfl
    | cons b ys =>
      unfold escapeLoop at h
      split at h <;> simp [escapeLoop] at h
  | cons a xs ih =>
    cases y with
    | nil =>
      unfold escapeLoop at h
      split at h <;> simp [escapeLoop] at h
    | cons b ys =>
      by_cases ha : a = '"' <;> by_cases hb : b = '"'
      · simp only [escapeLoop, ha, hb, if_true, List.cons.injEq, true_and] at h
        rw [ha, hb, ih ys h]
      · simp only [escapeLoop, ha, hb, if_true, if_false, List.cons.injEq] at h
        exact absurd h.1.symm hb
      · simp only [escapeLoop, ha, hb, if_true, if_false, List.cons.injEq] at h
        exact h.1.elim
      · simp only [escapeLoop, ha, hb, if_false, List.cons.injEq] at h
        rw [h.1, ih ys h.2]

theorem escapeCSV_quoted_of_mem (x : Str) (h : '"' ∈ x) :
    escapeCSV x = ['"'] ++ escapeLoop x ++ ['"'] := by
  unfold escapeCSV
  rw [if_pos]
  simp [(find_isSome_iff '"' x).mpr h]

theorem escapeCSV_cases (x : Str) :
    (escapeCSV x = x ∧ '"' ∉ x) ∨ escapeCSV x = ['"'] ++ escapeLoop x ++ ['"'] := by
  unfold escapeCSV
  split
  · exact Or.inr rfl
  · rename_i h
    simp only [Bool.or_eq_true, not_or, Bool.not_eq_true, Option.not_isSome,
      Option.isNone_iff_eq_none, find_eq_none_iff] at h
    exact Or.inl ⟨rfl, h.1.2⟩

theorem escapeLoop_of_no_quote (V : Str) (hq : '"' ∉ V) : escapeLoop V = V := by
  induction V with
  | nil => rfl
  | cons c cs ih =>
    have hc : c ≠ '"' := fun e => hq (by simp [e])
    have hcs : '"' ∉ cs := fun e => hq (List.mem_cons_of_mem _ e)
    simp only [escapeLoop, hc, if_false, ih hcs]

theorem escapeCSV_of_comma (V : Str) (hc : ',' ∈ V) (hq : '"' ∉ V) :
    escapeCSV V = ['"'] ++ V ++ ['"'] := by
  unfold escapeCSV
  rw [if_pos (by simp [(find_isSome_iff ',' V).mpr hc]), escapeLoop_of_no_quote V hq]

/-- C19: `escapeCSV` is injective: two fields with the same escaped text are
the same field. -/
theorem C19_escapeCSV_injective (x y : Str) (h : escapeCSV x = escapeCSV y) : x = y := by
  rcases escapeCSV_cases x with ⟨hx, hxq⟩ | hx <;> rcases escapeCSV_cases y with ⟨hy, hyq⟩ | hy
  · rw [hx, hy] at h
    exact h
  · rw [hx, hy] at h
    exact absurd (by rw [h]; simp) hxq
  · rw [hx, hy] at h
    exact absurd (by rw [← h]; simp) hyq
  · rw [hx, hy] at h
    simp only [List.singleton_append, List.cons_append, List.cons.injEq, true_and] at h
    exact escapeLoop_injective x y (List.append_cancel_right h)

/-- C19 at the field `a,"b"`, whose escaped text is `"a,""b"""`. -/
theorem C19_escapeCSV_injective_witness :
    escapeCSV "a,\"b\"".toList = "\"a,\"\"b\"\"\"".toList ∧
    escapeCSV "a,\"b\"".toList = escapeCSV "a,\"b\"".toList ∧
    "a,\"b\"".toList = "a,\"b\"".toList :=
  ⟨by decide, rfl, C19_escapeCSV_injective _ _ rfl⟩

/-! ## Proofs: the state of the loop of `main` -/

theorem segmentsFrom_eq_closed_open (cur lines : List Str) :
    segmentsFrom cur lines =
      closedRuns cur lines ++ (if (openRun cur lines).isEmpty then [] else [openRun cur lines]) := by
  induction lines generalizing cur with
  | nil => simp [segmentsFrom, closedRuns, openRun]
  | cons l ls ih =>
    unfold segmentsFrom closedRuns openRun
    by_cases hb : isBlank l = true
    · rw [if_pos hb, if_pos hb, if_pos hb]
      by_cases hc : cur.isEmpty = true
      · rw [if_pos hc, if_pos hc, ih]
      · rw [if_neg hc, if_neg hc, ih, List.cons_append]
    · rw [if_neg hb, if_neg hb, if_neg hb, ih]

theorem afterRun_fst (cur : List Str) (n : Nat) (out : List Str) :
    (afterRun cur n out).1 = n + (parseRun cur).toList.length := by
  unfold afterRun
  cases parseRun cur <;> rfl

theorem afterRun_snd (cur : List Str) (n : Nat) (out : List Str) :
    (afterRun cur n out).2 = out ++ numberedRows n (parseRun cur).toList := by
  unfold afterRun
  cases parseRun cur with
  | none => simp [numberedRows]
  | some d => simp [numberedRows]

theorem numberedRows_append (n : Nat) (xs ys : List GameData) :
    numberedRows n (xs ++ ys) = numberedRows n xs ++ numberedRows (n + xs.length) ys := by
  induction xs generalizing n with
  | nil => simp [numberedRows]
  | cons x xs ih =>
    rw [List.cons_append, numberedRows_cons, numberedRows_cons, ih, List.length_cons,
      List.cons_append]
    congr 3
    omega

theorem mainLoop_LoopInv (lines : List Str) (s : MainState) (cur : List Str) (n : Nat)
    (out : List Str) (h : LoopInv s cur n out) :
    LoopInv (lines.foldl mainStep s) (openRun cur lines)
      (n + ((closedRuns cur lines).filterMap parseRun).length)
      (out ++ numberedRows n ((closedRuns cur lines).filterMap parseRun)) := by
  induction lines generalizing s cur n out with
  | nil =>
    simpa [closedRuns, openRun, numberedRows] using h
  | cons l ls ih =>
    rw [List.foldl_cons]
    unfold closedRuns openRun
    cases hb : isBlank l with
    | false =>
      simp only [Bool.false_eq_true, if_false]
      exact ih _ _ _ _ (LoopInv_nonblank s cur n out l h hb)
    | true =>
      simp only [if_true]
      cases cur with
      | nil =>
        simp only [List.isEmpty_nil, if_true]
        exact ih _ _ _ _ (LoopInv_blank_nil s n out l h hb)
      | cons a t =>
        simp only [List.isEmpty_cons, Bool.false_eq_true, if_false]
        have h2 := ih _ _ _ _ (LoopInv_blank_cons s (a :: t) n out l h (by simp) hb)
        rw [afterRun_fst, afterRun_snd] at h2
        have e1 : n + (parseRun (a :: t)).toList.length +
            ((closedRuns [] ls).filterMap parseRun).length =
            n + (((a :: t) :: closedRuns [] ls).filterMap parseRun).length := by
          rw [List.filterMap_cons]
          cases parseRun (a :: t) with
          | none => simp
          | some d => simp; omega
        have e2 : out ++ numberedRows n (parseRun (a :: t)).toList ++
            numberedRows (n + (parseRun (a :: t)).toList.length)
              ((closedRuns [] ls).filterMap parseRun) =
            out ++ numberedRows n (((a :: t) :: closedRuns [] ls).filterMap parseRun) := by
          rw [List.append_assoc, ← numberedRows_append]
          congr 2
          rw [List.filterMap_cons]
          cases parseRun (a :: t) <;> simp
        rw [e1, e2] at h2
        exact h2

/-- The counter of `main` after the whole run: the number of games that a
blank line closed. -/
theorem mainRun_gameNumber (lines : List Str) :
    (mainRun lines).gameNumber = ((closedRuns [] lines).filterMap parseRun).length := by
  have h := mainLoop_LoopInv lines MainState.init [] 0 [] LoopInv_init
  have hfin : ∀ s : MainState, (mainFinish s).gameNumber = s.gameNumber := by
    intro s
    rw [mainFinish_eq]
    split
    · split <;> rfl
    · rfl
  unfold mainRun
  rw [hfin, h.2.2.1, Nat.zero_add]

theorem parseRun_nil : parseRun [] = none := rfl

theorem dataRows_length (lines : List Str) :
    (dataRows lines).length =
      ((closedRuns [] lines).filterMap parseRun).length +
        (parseRun (openRun [] lines)).toList.length := by
  rw [dataRows_eq, numberedRows_length, segmentsFrom_eq_closed_open, List.filterMap_append,
    List.length_append]
  congr 1
  cases ho : openRun [] lines with
  | nil => simp [parseRun_nil]
  | cons a t =>
    simp only [List.isEmpty_cons, Bool.false_eq_true, if_false, List.filterMap_cons,
      List.filterMap_nil]
    cases parseRun (a :: t) <;> rfl

/-- The counter of `main` at the end falls short of the number of rows by
one exactly when the run still open at end of input parses. -/
theorem mainRun_gameNumber_add (lines : List Str) :
    (mainRun lines).gameNumber + (parseRun (openRun [] lines)).toList.length =
      (dataRows lines).length := by
  rw [mainRun_gameNumber, dataRows_length]

theorem openRun_append_blank (cur lines : List Str) (b : Str) (hb : isBlank b = true) :
    openRun cur (lines ++ [b]) = [] := by
  induction lines generalizing cur with
  | nil => simp [openRun, hb]
  | cons l ls ih =>
    rw [List.cons_append]
    unfold openRun
    split
    · exact ih _
    · exact ih _

/-- When the input ends with a blank line the counter of `main` at the end
is the number of rows. -/
theorem mainRun_gameNumber_of_blank_end (lines : List Str) (b : Str) (hb : isBlank b = true) :
    (mainRun (lines ++ [b])).gameNumber = (dataRows (lines ++ [b])).length := by
  have h := mainRun_gameNumber_add (lines ++ [b])
  rw [openRun_append_blank [] lines b hb, parseRun_nil] at h
  simpa using h

/-- C13 at the input whose only line is `[Event "x"]`, with no blank line
after it: one data row is written and the counter that the summary message
prints is still 0; with a blank line after it the counter is 1. -/
theorem C13_counter_misses_last_game :
    (dataRows ["[Event \"x\"]".toList]).length = 1 ∧
    (mainRun ["[Event \"x\"]".toList]).gameNumber = 0 ∧
    (mainRun ["[Event \"x\"]".toList, "".toList]).gameNumber = 1 := by
  decide

theorem openRun_append_singleton (cur lines : List Str) (l : Str) :
    openRun cur (lines ++ [l]) = if isBlank l then [] else openRun cur lines ++ [l] := by
  induction lines generalizing cur with
  | nil =>
    simp only [List.nil_append, openRun]
  | cons x xs ih =>
    rw [List.cons_append]
    unfold openRun
    split
    · exact ih _
    · exact ih _

theorem openRun_nil_ne_nil_iff (lines : List Str) :
    openRun [] lines ≠ [] ↔ ∃ l, lines.getLast? = some l ∧ isBlank l = false := by
  rcases List.eq_nil_or_concat lines with e | ⟨pre, l, e⟩
  · subst e
    simp [openRun]
  · subst e
    rw [List.concat_eq_append, openRun_append_singleton, List.getLast?_concat]
    cases hb : isBlank l <;> simp [hb]

/-- C20: after any number `k` of input lines the flag `inGame` is true
exactly when the buffer `currentGame` is non-empty, so the second conjunct of
`inGame && !currentGame.empty()` is redundant; the buffer holds the text of
the non-blank lines read since the last blank line, and the flag is true
exactly when the last line read is non-blank. -/
theorem C20_inGame_iff_buffer_nonempty (lines : List Str) (k : Nat) :
    (((lines.take k).foldl mainStep MainState.init).inGame = true ↔
      ((lines.take k).foldl mainStep MainState.init).currentGame ≠ []) ∧
    (((lines.take k).foldl mainStep MainState.init).inGame &&
      !((lines.take k).foldl mainStep MainState.init).currentGame.isEmpty) =
      ((lines.take k).foldl mainStep MainState.init).inGame ∧
    ((lines.take k).foldl mainStep MainState.init).currentGame =
      segmentText (openRun [] (lines.take k)) ∧
    (((lines.take k).foldl mainStep MainState.init).inGame = true ↔
      ∃ l, (lines.take k).getLast? = some l ∧ isBlank l = false) := by
  obtain ⟨h1, h2, _, _⟩ := mainLoop_LoopInv (lines.take k) MainState.init [] 0 [] LoopInv_init
  have h3 := segmentText_isEmpty (openRun [] (lines.take k))
  have h4 := openRun_nil_ne_nil_iff (lines.take k)
  have hne : ∀ r : List Str, (!r.isEmpty) = true ↔ r ≠ [] := by
    intro r
    cases r <;> simp
  have hne2 : ∀ r : Str, r.isEmpty = false ↔ r ≠ [] := by
    intro r
    cases r <;> simp
  rw [h1, h2, h3]
  refine ⟨?_, ?_, rfl, ?_⟩
  · rw [← hne2, h3, ← Bool.not_eq_true']
  · simp
  · rw [← h4]
    exact hne _

/-! ## Proofs: blank lines at the end -/

theorem segmentsFrom_cons_blank (cur ls : List Str) (l : Str) (h : isBlank l = true) :
    segmentsFrom cur (l :: ls) =
      if cur.isEmpty then segmentsFrom [] ls else cur :: segmentsFrom [] ls := by
  rw [segmentsFrom, if_pos h]

theorem segmentsFrom_cons_nonblank (cur ls : List Str) (l : Str) (h : isBlank l = false) :
    segmentsFrom cur (l :: ls) = segmentsFrom (cur ++ [l]) ls := by
  rw [segmentsFrom, if_neg (by rw [h]; simp)]

theorem segmentsFrom_nil_right (cur : List Str) :
    segmentsFrom cur [] = if cur.isEmpty then [] else [cur] := by
  rw [segmentsFrom]

theorem segmentsFrom_all_blank (cur B : List Str) (hB : ∀ b ∈ B, isBlank b = true) :
    segmentsFrom cur B = segmentsFrom cur [] := by
  induction B generalizing cur with
  | nil => rfl
  | cons b bs ih =>
    have hb : isBlank b = true := hB b (List.mem_cons_self _ _)
    have hbs : ∀ x ∈ bs, isBlank x = true := fun x hx => hB x (List.mem_cons_of_mem _ hx)
    conv_lhs => unfold segmentsFrom
    rw [if_pos hb, ih [] hbs]
    unfold segmentsFrom
    cases cur <;> rfl

theorem segmentsFrom_append_blank (cur L B : List Str) (hB : ∀ b ∈ B, isBlank b = true) :
    segmentsFrom cur (L ++ B) = segmentsFrom cur L := by
  induction L generalizing cur with
  | nil => exact segmentsFrom_all_blank cur B hB
  | cons l ls ih =>
    rw [List.cons_append]
    unfold segmentsFrom
    rw [ih, ih]

theorem segmentsFrom_append_blank_cons (cur A rest : List Str) (b : Str)
    (hb : isBlank b = true) :
    segmentsFrom cur (A ++ b :: rest) = segmentsFrom cur A ++ segmentsFrom [] rest := by
  induction A generalizing cur with
  | nil =>
    rw [List.nil_append, segmentsFrom_cons_blank _ _ _ hb, segmentsFrom_nil_right]
    cases cur <;> simp
  | cons a as ih =>
    rw [List.cons_append]
    cases ha : isBlank a with
    | true =>
      rw [segmentsFrom_cons_blank _ _ _ ha, segmentsFrom_cons_blank _ _ _ ha, ih]
      cases cur <;> simp
    | false =>
      rw [segmentsFrom_cons_nonblank _ _ _ ha, segmentsFrom_cons_nonblank _ _ _ ha, ih]

/-- C14: blank lines added at the end of the input change no data row, so an
input that does not end with a blank line loses no row and gains none. -/
theorem C14_trailing_blank_lines (L B : List Str) (hB : ∀ b ∈ B, isBlank b = true) :
    dataRows (L ++ B) = dataRows L := by
  rw [dataRows_eq, dataRows_eq, segmentsFrom_append_blank [] L B hB]

/-- C14 at the game `[Event "x"]` followed by an empty line and a line of
space, tab and carriage return. -/
theorem C14_trailing_blank_lines_witness :
    (∀ b ∈ ["".toList, " \t\r".toList], isBlank b = true) ∧
    dataRows (["[Event \"x\"]".toList] ++ ["".toList, " \t\r".toList]) =
      dataRows ["[Event \"x\"]".toList] :=
  ⟨by decide, C14_trailing_blank_lines _ _ (by decide)⟩

/-! ## Proofs: segments without a tag line -/

theorem mem_segmentsFrom (cur lines : List Str) :
    ∀ r ∈ segmentsFrom cur lines, ∀ l ∈ r, l ∈ cur ∨ (l ∈ lines ∧ isBlank l = false) := by
  induction lines generalizing cur with
  | nil =>
    intro r hr l hl
    unfold segmentsFrom at hr
    split at hr
    · simp at hr
    · rw [List.mem_singleton] at hr
      subst hr
      exact Or.inl hl
  | cons x xs ih =>
    intro r hr l hl
    unfold segmentsFrom at hr
    by_cases hb : isBlank x = true
    · rw [if_pos hb] at hr
      have hrest : r ∈ segmentsFrom [] xs → l ∈ cur ∨ (l ∈ x :: xs ∧ isBlank l = false) := by
        intro h
        rcases ih [] r h l hl with h1 | h1
        · simp at h1
        · exact Or.inr ⟨List.mem_cons_of_mem _ h1.1, h1.2⟩
      split at hr
      · exact hrest hr
      · rcases List.mem_cons.mp hr with e | e
        · subst e
          exact Or.inl hl
        · exact hrest e
    · rw [if_neg hb] at hr
      rcases ih _ r hr l hl with h1 | h1
      · rcases List.mem_append.mp h1 with h2 | h2
        · exact Or.inl h2
        · rw [List.mem_singleton] at h2
          subst h2
          simp only [Bool.not_eq_true] at hb
          exact Or.inr ⟨List.mem_cons_self _ _, hb⟩
      · exact Or.inr ⟨List.mem_cons_of_mem _ h1.1, h1.2⟩

theorem mem_segments (lines : List Str) :
    ∀ r ∈ segments lines, ∀ l ∈ r, l ∈ lines ∧ isBlank l = false := by
  intro r hr l hl
  rw [← segmentsFrom_nil] at hr
  rcases mem_segmentsFrom [] lines r hr l hl with h | h
  · simp at h
  · exact h

theorem headerLines_segmentText (run : List Str) (hn : ∀ l ∈ run, '\n' ∉ l)
    (hb : ∀ l ∈ run, isBlank l = false) :
    headerLines (segmentText run) = run.map trim := by
  unfold headerLines segmentText
  rw [getlines_segment run hn, List.takeWhile_eq_self_iff]
  intro l hl
  obtain ⟨x, hx, e⟩ := List.mem_map.mp hl
  subst e
  have := hb x hx
  unfold isBlank at this
  simp [this]

theorem headerLines_segmentText_subset (run : List Str) (hn : ∀ l ∈ run, '\n' ∉ l) :
    ∀ l ∈ headerLines (segmentText run), ∃ x ∈ run, l = trim x := by
  intro l hl
  unfold headerLines segmentText at hl
  rw [getlines_segment run hn] at hl
  obtain ⟨x, hx, e⟩ := List.mem_map.mp ((List.takeWhile_sublist _).subset hl)
  exact ⟨x, hx, e.symm⟩

theorem parseRun_eq_none (run : List Str) (hn : ∀ l ∈ run, '\n' ∉ l)
    (ht : ∀ l ∈ run, ¬ isStoredTag (trim l)) : parseRun run = none := by
  unfold parseRun
  simp only []
  rw [if_neg]
  intro h
  obtain ⟨line, hl, hs⟩ := (parseGame_fst_iff _ _ _).mp h
  obtain ⟨x, hx, e⟩ := headerLines_segmentText_subset run hn line hl
  subst e
  exact ht x hx hs

theorem filterMap_parseRun_segmentsFrom_nil (lines : List Str) (hn : ∀ l ∈ lines, '\n' ∉ l)
    (ht : ∀ l ∈ lines, ¬ isStoredTag (trim l)) :
    (segmentsFrom [] lines).filterMap parseRun = [] := by
  rw [List.filterMap_eq_nil_iff]
  intro r hr
  apply parseRun_eq_none
  · intro l hl
    rcases mem_segmentsFrom [] lines r hr l hl with h | h
    · simp at h
    · exact hn l h.1
  · intro l hl
    rcases mem_segmentsFrom [] lines r hr l hl with h | h
    · simp at h
    · exact ht l h.1

/-- C12: a stretch `R` of input lines none of which, after trimming, both
starts with `[` and ends with `]` gives no data row and leaves the counter at
0 when it is the whole input, and placed between two blank lines inside a
larger input it changes no data row of that input, game numbers included. -/
theorem C12_untagged_lines_emit_nothing (A R B : List Str) (b1 b2 : Str)
    (hb1 : isBlank b1 = true) (hb2 : isBlank b2 = true) (hn : ∀ l ∈ R, '\n' ∉ l)
    (hno : ∀ l ∈ R, ¬ ((trim l).head? = some '[' ∧ (trim l).getLast? = some ']')) :
    dataRows R = [] ∧ (mainRun R).gameNumber = 0 ∧
      dataRows (A ++ b1 :: (R ++ b2 :: B)) = dataRows (A ++ b1 :: B) := by
  have ht : ∀ l ∈ R, ¬ isStoredTag (trim l) := fun l hl hs => hno l hl ⟨hs.1, hs.2.1⟩
  have hnil := filterMap_parseRun_segmentsFrom_nil R hn ht
  refine ⟨?_, ?_, ?_⟩
  · rw [dataRows_eq, hnil]
    rfl
  · rw [mainRun_gameNumber]
    rw [segmentsFrom_eq_closed_open, List.filterMap_append, List.append_eq_nil] at hnil
    rw [hnil.1]
    rfl
  · rw [dataRows_eq, dataRows_eq, segmentsFrom_append_blank_cons _ _ _ _ hb1,
      segmentsFrom_append_blank_cons _ _ _ _ hb2, segmentsFrom_append_blank_cons _ _ _ _ hb1,
      List.filterMap_append, List.filterMap_append, List.filterMap_append, hnil,
      List.nil_append]

/-- C12 at the untagged lines `1. e4 e5`, an empty line and `1/2-1/2`, alone
and between the games `[Event "x"]` and `[Event "y"]`. -/
theorem C12_untagged_lines_emit_nothing_witness :
    dataRows ["1. e4 e5".toList, "".toList, "1/2-1/2".toList] = [] ∧
    (mainRun ["1. e4 e5".toList, "".toList, "1/2-1/2".toList]).gameNumber = 0 ∧
    dataRows (["[Event \"x\"]".toList] ++ "".toList ::
        (["1. e4 e5".toList, "".toList, "1/2-1/2".toList] ++ "".toList ::
          ["[Event \"y\"]".toList])) =
      dataRows (["[Event \"x\"]".toList] ++ "".toList :: ["[Event \"y\"]".toList]) :=
  C12_untagged_lines_emit_nothing ["[Event \"x\"]".toList]
    ["1. e4 e5".toList, "".toList, "1/2-1/2".toList] ["[Event \"y\"]".toList]
    "".toList "".toList (by decide) (by decide) (by decide) (by decide)

/-! ## Proofs: trimmed input lines -/

theorem trim_trim (s : Str) : trim (trim s) = trim s := by
  by_cases hne : trim s = []
  · rw [hne]
    decide
  · have hh : (trim s).head? = some ((trim s).head hne) := List.head?_eq_head hne
    have hl : (trim s).getLast? = some ((trim s).getLast hne) := List.getLast?_eq_getLast _ hne
    have ha : (trim s).head hne ∉ whitespace := by
      apply trimRef_head? s
      rw [← trim_eq_trimRef]
      exact hh
    have hb : (trim s).getLast hne ∉ whitespace := by
      apply trimRef_getLast? s
      rw [← trim_eq_trimRef]
      exact hl
    exact trim_eq_self (trim s) _ _ hh hl ha hb

theorem isBlank_trim (s : Str) : isBlank (trim s) = isBlank s := by
  unfold isBlank
  rw [trim_trim]

theorem not_mem_trim (s : Str) (c : Char) (h : c ∉ s) : c ∉ trim s := by
  intro hc
  apply h
  have hd := trimRef_decomp s
  rw [← trim_eq_trimRef] at hd
  rw [hd]
  simp [hc]

theorem parseHeaders_cons (raw : Str) (rest : List Str) (h : HeaderMap) :
    parseHeaders (raw :: rest) h =
      if (trim raw).isEmpty then h else parseHeaders rest (parseHeaderLine (trim raw) h) := rfl

theorem parseHeaders_map_trim (lines : List Str) (h : HeaderMap) :
    parseHeaders (lines.map trim) h = parseHeaders lines h := by
  induction lines generalizing h with
  | nil => rfl
  | cons l ls ih =>
    rw [List.map_cons, parseHeaders_cons, parseHeaders_cons, trim_trim, ih]

theorem parseGame_eq_of_headers (p q : PGNParser) (t1 t2 : Str) (d : GameData)
    (h : parseHeaders (getlines t1) [] = parseHeaders (getlines t2) []) :
    parseGame p t1 d = parseGame q t2 d := by
  have e1 : (parseGame p t1 d).2.1 = (parseGame q t2 d).2.1 := by
    show PGNParser.mk _ = PGNParser.mk _
    rw [h]
  refine Prod.ext ?_ (Prod.ext e1 ?_)
  · rw [parseGame_fst, parseGame_fst, h]
  · rw [parseGame_data, parseGame_data, e1]

theorem parseRun_map_trim (run : List Str) (hn : ∀ l ∈ run, '\n' ∉ l) :
    parseRun (run.map trim) = parseRun run := by
  have hn2 : ∀ l ∈ run.map trim, '\n' ∉ l := by
    intro l hl
    obtain ⟨x, hx, e⟩ := List.mem_map.mp hl
    subst e
    exact not_mem_trim x _ (hn x hx)
  have e : parseGame { headers := [] } (segmentText (run.map trim)) (GameData.fresh 0) =
      parseGame { headers := [] } (segmentText run) (GameData.fresh 0) := by
    apply parseGame_eq_of_headers
    unfold segmentText
    rw [getlines_segment _ hn2, getlines_segment _ hn, parseHeaders_map_trim]
  unfold parseRun
  rw [e]

theorem segmentsFrom_map_trim (cur lines : List Str) :
    segmentsFrom (cur.map trim) (lines.map trim) =
      (segmentsFrom cur lines).map (List.map trim) := by
  induction lines generalizing cur with
  | nil =>
    rw [List.map_nil, segmentsFrom_nil_right, segmentsFrom_nil_right]
    cases cur <;> simp
  | cons l ls ih =>
    rw [List.map_cons]
    cases hb : isBlank l with
    | true =>
      rw [segmentsFrom_cons_blank _ _ _ (by rw [isBlank_trim]; exact hb),
        segmentsFrom_cons_blank _ _ _ hb]
      have := ih []
      rw [List.map_nil] at this
      cases cur <;> simp [this]
    | false =>
      rw [segmentsFrom_cons_nonblank _ _ _ (by rw [isBlank_trim]; exact hb),
        segmentsFrom_cons_nonblank _ _ _ hb, ← ih]
      simp

/-- C18: for input lines without a newline character, replacing every line
by its trimmed form changes no data row. -/
theorem C18_rows_of_trimmed_lines (lines : List Str) (hn : ∀ l ∈ lines, '\n' ∉ l) :
    dataRows (lines.map trim) = dataRows lines := by
  rw [dataRows_eq, dataRows_eq]
  have h := segmentsFrom_map_trim [] lines
  rw [List.map_nil] at h
  rw [h, List.filterMap_map]
  congr 1
  apply List.filterMap_congr
  intro r hr
  apply parseRun_map_trim
  intro l hl
  rcases mem_segmentsFrom [] lines r hr l hl with h1 | h1
  · simp at h1
  · exact hn l h1.1

/-- C18 at a file with CRLF line ends, indented tag lines and a line of
blanks between two games. -/
theorem C18_rows_of_trimmed_lines_witness :
    (∀ l ∈ ["  [Event \"a b\"]\r".toList, "\t[ECO \"C50\"] \r".toList, " \t\r".toList,
        "[Event \"c\"]\r".toList], '\n' ∉ l) ∧
    dataRows (["  [Event \"a b\"]\r".toList, "\t[ECO \"C50\"] \r".toList, " \t\r".toList,
        "[Event \"c\"]\r".toList].map trim) =
      dataRows ["  [Event \"a b\"]\r".toList, "\t[ECO \"C50\"] \r".toList, " \t\r".toList,
        "[Event \"c\"]\r".toList] :=
  ⟨by decide, C18_rows_of_trimmed_lines _ (by decide)⟩

/-! ## Proofs: the header map as a lookup of the stored tags -/

theorem parseHeaderLine_eq_tagOf (line : Str) (h : HeaderMap) :
    parseHeaderLine line h =
      match tagOf line with
      | some kv => HeaderMap.set kv.1 kv.2 h
      | none => h := by
  unfold parseHeaderLine tagOf
  split
  · cases find ' ' line <;> rfl
  · rfl

theorem HeaderMap.find_set (key k v : Str) (m : HeaderMap) :
    HeaderMap.find key (HeaderMap.set k v m) =
      if k = key then some v else HeaderMap.find key m := by
  induction m with
  | nil => simp [HeaderMap.set, HeaderMap.find]
  | cons kv m ih =>
    obtain ⟨k1, v1⟩ := kv
    unfold HeaderMap.set
    by_cases h1 : k1 = k
    · rw [if_pos h1]
      subst h1
      by_cases h2 : k1 = key <;> simp [HeaderMap.find, h2]
    · rw [if_neg h1]
      by_cases h2 : k = key
      · subst h2
        simp [HeaderMap.find, h1, ih]
      · simp only [HeaderMap.find, ih, if_neg h2]

theorem find_parseHeaders (key : Str) (lines : List Str) (h : HeaderMap) :
    HeaderMap.find key (parseHeaders lines h) =
      lastValue key (HeaderMap.find key h)
        (((lines.map trim).takeWhile (fun l => !l.isEmpty)).filterMap tagOf) := by
  induction lines generalizing h with
  | nil => rfl
  | cons raw rest ih =>
    unfold parseHeaders
    by_cases he : (trim raw).isEmpty = true
    · simp [he, List.takeWhile_cons, lastValue]
    · rw [if_neg he, ih, parseHeaderLine_eq_tagOf]
      simp only [Bool.not_eq_true] at he
      simp only [List.map_cons, List.takeWhile_cons, he, Bool.not_false, if_true,
        List.filterMap_cons]
      cases tagOf (trim raw) with
      | none => rfl
      | some kv =>
        simp only [lastValue, List.foldl_cons, HeaderMap.find_set]

theorem find_parseGame (p : PGNParser) (text : Str) (data : GameData) (key : Str) :
    HeaderMap.find key (parseGame p text data).2.1.headers =
      lastValue key none (storedTags text) := by
  rw [parseGame_headers, find_parseHeaders]
  rfl

theorem lastValue_of_absent (key : Str) (acc : Option Str) (tags : List (Str × Str))
    (h : ∀ kv ∈ tags, kv.1 ≠ key) : lastValue key acc tags = acc := by
  induction tags generalizing acc with
  | nil => rfl
  | cons kv tags ih =>
    have h1 : kv.1 ≠ key := h kv (List.mem_cons_self _ _)
    simp only [lastValue, List.foldl_cons, if_neg h1]
    exact ih acc (fun x hx => h x (List.mem_cons_of_mem _ hx))

theorem lastValue_of_last (key v : Str) (acc : Option Str) (pre post : List (Str × Str))
    (h : ∀ kv ∈ post, kv.1 ≠ key) :
    lastValue key acc (pre ++ (key, v) :: post) = some v := by
  unfold lastValue
  rw [List.foldl_append, List.foldl_cons, if_pos rfl]
  exact lastValue_of_absent key (some v) post h

theorem getHeaderValue_of_find (p : PGNParser) (key : Str) :
    getHeaderValue p key = (HeaderMap.find key p.headers).getD [] := by
  unfold getHeaderValue
  cases HeaderMap.find key p.headers <;> rfl

theorem tagOf_tagLine (K V : Str) (hK : ' ' ∉ K) : tagOf (tagLine K V) = some (K, V) := by
  have h1 := parseHeaderLine_tagLine K V [] hK
  rw [parseHeaderLine_eq_tagOf] at h1
  cases ht : tagOf (tagLine K V) with
  | none =>
    rw [ht] at h1
    exact absurd h1.symm (HeaderMap.set_ne_nil _ _ _)
  | some kv =>
    rw [ht] at h1
    simp only [HeaderMap.set, List.cons.injEq, and_true] at h1
    exact congrArg some h1

theorem parseGame_state_irrelevant (p q : PGNParser) (text : Str) (data : GameData) :
    parseGame p text data = parseGame q text data := rfl

theorem getHeaderValue_of_absent (p : PGNParser) (text : Str) (data : GameData) (key : Str)
    (h : ∀ kv ∈ storedTags text, kv.1 ≠ key) :
    getHeaderValue (parseGame p text data).2.1 key = [] := by
  rw [getHeaderValue_of_find, find_parseGame, lastValue_of_absent key none _ h]
  rfl

theorem getHeaderValue_of_last (p : PGNParser) (text : Str) (data : GameData) (key v : Str)
    (pre post : List (Str × Str)) (hs : storedTags text = pre ++ (key, v) :: post)
    (hpost : ∀ kv ∈ post, kv.1 ≠ key) :
    getHeaderValue (parseGame p text data).2.1 key = v := by
  rw [getHeaderValue_of_find, find_parseGame, hs, lastValue_of_last key v none pre post hpost]
  rfl

/-- C15: the outputs of `parseGame` and the header map it leaves do not
depend on the parser state before the call; a key that no stored tag line of
the text has gives the empty string, so the field of an absent key is empty
in the row and the category of an absent ECO is "Unknown category".  The
second row of the evaluated input shows it after a game that had the keys. -/
theorem C15_fields_depend_on_own_segment (p q : PGNParser) (text : Str) (data : GameData) :
    parseGame p text data = parseGame q text data ∧
    (∀ key, (∀ kv ∈ storedTags text, kv.1 ≠ key) →
      getHeaderValue (parseGame p text data).2.1 key = []) ∧
    ((∀ kv ∈ storedTags text, kv.1 ≠ "WhiteElo".toList) →
      (parseGame p text data).2.2.whiteElo = [] ∧
      formatNumber (parseGame p text data).2.2.whiteElo = []) ∧
    ((∀ kv ∈ storedTags text, kv.1 ≠ "BlackElo".toList) →
      (parseGame p text data).2.2.blackElo = [] ∧
      formatNumber (parseGame p text data).2.2.blackElo = []) ∧
    ((∀ kv ∈ storedTags text, kv.1 ≠ "ECO".toList) →
      (parseGame p text data).2.2.eco = [] ∧
      (parseGame p text data).2.2.openingCategory = "Unknown category".toList) ∧
    ((∀ kv ∈ storedTags text, kv.1 ≠ "Opening".toList) →
      (parseGame p text data).2.2.opening = [] ∧
      escapeCSV (parseGame p text data).2.2.opening = []) ∧
    ((∀ kv ∈ storedTags text, kv.1 ≠ "Event".toList) →
      (parseGame p text data).2.2.event = [] ∧
      escapeCSV (parseGame p text data).2.2.event = []) ∧
    ((∀ kv ∈ storedTags text, kv.1 ≠ "Result".toList) →
      (parseGame p text data).2.2.result = []) ∧
    dataRows ["[ECO \"C50\"]".toList, "[WhiteElo \"2000\"]".toList, "".toList,
        "[Event \"x\"]".toList] =
      ["0,2000,,C50,,,,Offene Eröffnung".toList, "1,,,,,x,,Unknown category".toList] := by
  refine ⟨rfl, fun key h => getHeaderValue_of_absent p text data key h, ?_, ?_, ?_, ?_, ?_, ?_,
    by decide⟩
  · intro h
    have e : (parseGame p text data).2.2.whiteElo = [] := getHeaderValue_of_absent p text data _ h
    rw [e]
    exact ⟨rfl, by decide⟩
  · intro h
    have e : (parseGame p text data).2.2.blackElo = [] := getHeaderValue_of_absent p text data _ h
    rw [e]
    exact ⟨rfl, by decide⟩
  · intro h
    have e : (parseGame p text data).2.2.eco = [] := getHeaderValue_of_absent p text data _ h
    have e2 : (parseGame p text data).2.2.openingCategory =
        categorizeOpening (parseGame p text data).2.2.eco := rfl
    rw [e2, e]
    exact ⟨rfl, by decide⟩
  · intro h
    have e : (parseGame p text data).2.2.opening = [] := getHeaderValue_of_absent p text data _ h
    rw [e]
    exact ⟨rfl, by decide⟩
  · intro h
    have e : (parseGame p text data).2.2.event = [] := getHeaderValue_of_absent p text data _ h
    rw [e]
    exact ⟨rfl, by decide⟩
  · intro h
    exact getHeaderValue_of_absent p text data _ h

theorem parseHeaders_two_tagLines (K V1 V2 : Str) (hK : ' ' ∉ K) :
    parseHeaders [tagLine K V1, tagLine K V2] [] = [(K, V2)] := by
  rw [parseHeaders_tagLine_cons _ _ _ _ hK, parseHeaders_tagLine_cons _ _ _ _ hK]
  simp [parseHeaders, HeaderMap.set]

/-- C16: when the stored tags of a text are `pre`, then `(key, v)`, then
`post`, and no pair of `post` has the key `key`, the header map after
`parseGame` holds `v` for `key`: the last tag line with that key wins.  Two
lines `[ECO "V1"]`, `[ECO "V2"]` give the opening code `V2` and its category. -/
theorem C16_last_duplicate_wins (p : PGNParser) (text : Str) (data : GameData) (key v : Str)
    (pre post : List (Str × Str)) (hs : storedTags text = pre ++ (key, v) :: post)
    (hpost : ∀ kv ∈ post, kv.1 ≠ key) (V1 V2 : Str) (h1 : '\n' ∉ V1) (h2 : '\n' ∉ V2) :
    HeaderMap.find key (parseGame p text data).2.1.headers = some v ∧
    getHeaderValue (parseGame p text data).2.1 key = v ∧
    (parseGame p (tagLine "ECO".toList V1 ++ ['\n'] ++ (tagLine "ECO".toList V2 ++ ['\n']))
      data).2.2.eco = V2 ∧
    (parseGame p (tagLine "ECO".toList V1 ++ ['\n'] ++ (tagLine "ECO".toList V2 ++ ['\n']))
      data).2.2.openingCategory = categorizeOpening V2 := by
  have hlines : getlines (tagLine "ECO".toList V1 ++ ['\n'] ++ (tagLine "ECO".toList V2 ++ ['\n'])) =
      [tagLine "ECO".toList V1, tagLine "ECO".toList V2] := by
    have := getlines_segment [tagLine "ECO".toList V1, tagLine "ECO".toList V2]
      (by
        intro l hl
        simp only [List.mem_cons, List.mem_singleton, List.not_mem_nil, or_false] at hl
        rcases hl with e | e <;> subst e
        · exact tagLine_no_newline _ _ (by decide) h1
        · exact tagLine_no_newline _ _ (by decide) h2)
    simpa [List.flatMap_cons] using this
  have hh : (parseGame p (tagLine "ECO".toList V1 ++ ['\n'] ++
      (tagLine "ECO".toList V2 ++ ['\n'])) data).2.1 = { headers := [("ECO".toList, V2)] } := by
    have e0 : ∀ T : Str, (parseGame p T data).2.1 =
        { headers := parseHeaders (getlines T) [] } := fun _ => rfl
    rw [e0, hlines, parseHeaders_two_tagLines _ _ _ (by decide)]
  have heco : (parseGame p (tagLine "ECO".toList V1 ++ ['\n'] ++
      (tagLine "ECO".toList V2 ++ ['\n'])) data).2.2.eco = V2 := by
    have e1 : ∀ T : Str, (parseGame p T data).2.2.eco =
        getHeaderValue (parseGame p T data).2.1 "ECO".toList := fun _ => rfl
    rw [e1, hh]
    exact getHeaderValue_single _ _
  refine ⟨?_, getHeaderValue_of_last p text data key v pre post hs hpost, heco, ?_⟩
  · rw [find_parseGame, hs, lastValue_of_last key v none pre post hpost]
  · have e2 : ∀ T : Str, (parseGame p T data).2.2.openingCategory =
        categorizeOpening (parseGame p T data).2.2.eco := fun _ => rfl
    rw [e2, heco]

/-- C16 at the text with the lines `[ECO "A00"]`, `[Event "x"]`,
`[ECO "C50"]`: the opening code is `C50`. -/
theorem C16_last_duplicate_wins_witness :
    storedTags "[ECO \"A00\"]\n[Event \"x\"]\n[ECO \"C50\"]\n".toList =
      [("ECO".toList, "A00".toList), ("Event".toList, "x".toList)] ++
        ("ECO".toList, "C50".toList) :: [] ∧
    getHeaderValue (parseGame { headers := [] }
      "[ECO \"A00\"]\n[Event \"x\"]\n[ECO \"C50\"]\n".toList (GameData.fresh 0)).2.1
      "ECO".toList = "C50".toList :=
  ⟨rfl,
   (C16_last_duplicate_wins { headers := [] }
      "[ECO \"A00\"]\n[Event \"x\"]\n[ECO \"C50\"]\n".toList (GameData.fresh 0)
      "ECO".toList "C50".toList [("ECO".toList, "A00".toList), ("Event".toList, "x".toList)] []
      rfl (by decide) "A00".toList "C50".toList (by decide) (by decide)).2.1⟩

/-! ## Proofs: quotes left on a stored value -/

theorem tagOf_eq_rawTagOf (line : Str) :
    tagOf line = (rawTagOf line).map (fun kr => (kr.1, removeQuotes kr.2)) := by
  unfold tagOf rawTagOf
  split
  · cases find ' ' line <;> rfl
  · rfl

theorem HeaderMap.mem_set (kv : Str × Str) (k v : Str) (m : HeaderMap)
    (h : kv ∈ HeaderMap.set k v m) : kv = (k, v) ∨ kv ∈ m := by
  induction m with
  | nil =>
    simp only [HeaderMap.set, List.mem_singleton] at h
    exact Or.inl h
  | cons a m ih =>
    obtain ⟨k1, v1⟩ := a
    unfold HeaderMap.set at h
    split at h
    · rcases List.mem_cons.mp h with e | e
      · exact Or.inl e
      · exact Or.inr (List.mem_cons_of_mem _ e)
    · rcases List.mem_cons.mp h with e | e
      · exact Or.inr (by rw [e]; exact List.mem_cons_self _ _)
      · rcases ih e with e2 | e2
        · exact Or.inl e2
        · exact Or.inr (List.mem_cons_of_mem _ e2)

theorem mem_parseHeaders (kv : Str × Str) (lines : List Str) (h : HeaderMap)
    (hkv : kv ∈ parseHeaders lines h) :
    kv ∈ h ∨ ∃ line ∈ (lines.map trim).takeWhile (fun l => !l.isEmpty), tagOf line = some kv := by
  induction lines generalizing h with
  | nil => exact Or.inl hkv
  | cons raw rest ih =>
    rw [parseHeaders_cons] at hkv
    by_cases he : (trim raw).isEmpty = true
    · rw [if_pos he] at hkv
      exact Or.inl hkv
    · rw [if_neg he] at hkv
      simp only [Bool.not_eq_true] at he
      have htw : (List.map trim (raw :: rest)).takeWhile (fun l => !l.isEmpty) =
          trim raw :: (rest.map trim).takeWhile (fun l => !l.isEmpty) := by
        simp [List.takeWhile_cons, he]
      rw [htw]
      rcases ih _ hkv with h1 | ⟨line, hl, ht⟩
      · rw [parseHeaderLine_eq_tagOf] at h1
        cases ht : tagOf (trim raw) with
        | none =>
          rw [ht] at h1
          exact Or.inl h1
        | some kv2 =>
          rw [ht] at h1
          rcases HeaderMap.mem_set kv _ _ _ h1 with e | e
          · right
            refine ⟨trim raw, List.mem_cons_self _ _, ?_⟩
            rw [ht, e]
          · exact Or.inl e
      · exact Or.inr ⟨line, List.mem_cons_of_mem _ hl, ht⟩

theorem mem_headers_parseGame (p : PGNParser) (text : Str) (data : GameData) (kv : Str × Str)
    (hkv : kv ∈ (parseGame p text data).2.1.headers) :
    ∃ line ∈ headerLines text, tagOf line = some kv := by
  rw [parseGame_headers] at hkv
  rcases mem_parseHeaders kv _ _ hkv with h | h
  · simp at h
  · exact h

theorem eq_cons_append_of_head_getLast (r : Str) (a b : Char) (hlen : 2 ≤ r.length)
    (ha : r.head? = some a) (hb : r.getLast? = some b) :
    r = [a] ++ (r.drop 1).dropLast ++ [b] := by
  cases r with
  | nil => simp at hlen
  | cons x t =>
    simp only [List.head?_cons, Option.some.injEq] at ha
    subst ha
    cases t with
    | nil => simp at hlen
    | cons y u =>
      rw [List.getLast?_cons_cons] at hb
      have h1 := List.dropLast_append_getLast? b hb
      simp only [List.drop_one, List.tail_cons, List.singleton_append, List.cons_append,
        List.cons.injEq, true_and]
      exact h1.symm

theorem isQuoted_removeQuotes_iff (r : Str) :
    isQuoted (removeQuotes r) ↔
      (r = ['"'] ∨ ∃ w, isQuoted w ∧ r = ['"'] ++ w ++ ['"']) := by
  unfold removeQuotes
  by_cases hc : (decide (r.length ≥ 2) && r.head? == some '"' && r.getLast? == some '"') = true
  · rw [if_pos hc]
    simp only [Bool.and_eq_true, decide_eq_true_eq, beq_iff_eq] at hc
    obtain ⟨⟨hlen, hh⟩, hl⟩ := hc
    have hne : r ≠ [] := by
      intro e
      subst e
      simp at hlen
    have hsub : substr r 1 (sizeSub r.length 2) = (r.drop 1).dropLast :=
      substr_one_sizeSub_two r hne
    have hdec := eq_cons_append_of_head_getLast r '"' '"' hlen hh hl
    rw [hsub]
    constructor
    · intro hq
      exact Or.inr ⟨_, hq, hdec⟩
    · rintro (e | ⟨w, hw, e⟩)
      · rw [e] at hlen
        simp at hlen
      · have : (r.drop 1).dropLast = w := by
          rw [e]
          simp
        rw [this]
        exact hw
  · rw [if_neg hc]
    constructor
    · intro hq
      left
      simp only [Bool.and_eq_true, decide_eq_true_eq, beq_iff_eq, not_and] at hc
      have hlen : ¬ r.length ≥ 2 := fun h => hc ⟨h, hq.1⟩ hq.2
      cases r with
      | nil => exact absurd hq.1 (by simp)
      | cons x t =>
        cases t with
        | nil =>
          have := hq.1
          simp only [List.head?_cons, Option.some.injEq] at this
          rw [this]
        | cons y u => simp at hlen
    · rintro (e | ⟨w, hw, e⟩)
      · rw [e]
        decide
      · exfalso
        apply hc
        have hl : r.getLast? = some '"' := by
          rw [e]
          exact List.getLast?_concat _
        have hh : r.head? = some '"' := by
          rw [e]
          rfl
        have hlen : r.length ≥ 2 := by
          rw [e]
          simp
        simp [hl, hh, hlen]

/-- C17, the statement that holds: a value `kv.2` stored in the header map is
`removeQuotes r` for the raw value `r` of one of the tag lines of the text
(its closing bracket removed), and it begins and ends with a double quote
exactly when `r` is the lone double quote or `r` is a value that itself begins
and ends with a double quote, wrapped in one more pair; the test of the
quote-stripping branch of `formatNumber` holds on `kv.2` exactly then. -/
theorem C17_stored_value_quoted_iff (p : PGNParser) (text : Str) (data : GameData)
    (kv : Str × Str) (hkv : kv ∈ (parseGame p text data).2.1.headers) :
    ∃ line ∈ headerLines text, ∃ r, rawTagOf line = some (kv.1, r) ∧ kv.2 = removeQuotes r ∧
      (isQuoted kv.2 ↔ (r = ['"'] ∨ ∃ w, isQuoted w ∧ r = ['"'] ++ w ++ ['"'])) ∧
      ((!kv.2.isEmpty && kv.2.head? == some '"' && kv.2.getLast? == some '"') = true ↔
        isQuoted kv.2) := by
  obtain ⟨line, hl, ht⟩ := mem_headers_parseGame p text data kv hkv
  rw [tagOf_eq_rawTagOf] at ht
  cases hr : rawTagOf line with
  | none =>
    rw [hr] at ht
    exact Option.noConfusion ht
  | some kr =>
    rw [hr] at ht
    simp only [Option.map_some', Option.some.injEq] at ht
    have h1 : kv.1 = kr.1 := by rw [← ht]
    have h2 : kv.2 = removeQuotes kr.2 := by rw [← ht]
    refine ⟨line, hl, kr.2, ?_, h2, ?_, ?_⟩
    · rw [h1]
      exact hr
    · rw [h2]
      exact isQuoted_removeQuotes_iff kr.2
    · unfold isQuoted
      cases kv.2 with
      | nil => simp
      | cons a t => simp

/-- C17 at the text `[WhiteElo ""2400""]`: the raw value is `""2400""` and
the stored value `"2400"` still has a pair of quotes. -/
theorem C17_stored_value_quoted_iff_witness :
    ("WhiteElo".toList, "\"2400\"".toList) ∈
      (parseGame { headers := [] } "[WhiteElo \"\"2400\"\"]\n".toList
        (GameData.fresh 0)).2.1.headers ∧
    ∃ line ∈ headerLines "[WhiteElo \"\"2400\"\"]\n".toList, ∃ r,
      rawTagOf line = some ("WhiteElo".toList, r) ∧ "\"2400\"".toList = removeQuotes r ∧
      (isQuoted "\"2400\"".toList ↔ (r = ['"'] ∨ ∃ w, isQuoted w ∧ r = ['"'] ++ w ++ ['"'])) ∧
      ((!("\"2400\"".toList).isEmpty && ("\"2400\"".toList).head? == some '"' &&
        ("\"2400\"".toList).getLast? == some '"') = true ↔ isQuoted "\"2400\"".toList) :=
  ⟨by decide,
   C17_stored_value_quoted_iff { headers := [] } "[WhiteElo \"\"2400\"\"]\n".toList
     (GameData.fresh 0) ("WhiteElo".toList, "\"2400\"".toList) (by decide)⟩

/-- C17 fails at the text `[WhiteElo ""2400""]`: the value stored for
`WhiteElo` is `"2400"` with its quotes, and `formatNumber` strips them. -/
theorem C17_doubly_quoted_counterexample :
    ¬ (∀ kv ∈ (parseGame { headers := [] } "[WhiteElo \"\"2400\"\"]\n".toList
        (GameData.fresh 0)).2.1.headers, ¬ isQuoted kv.2) ∧
    (parseGame { headers := [] } "[WhiteElo \"\"2400\"\"]\n".toList
        (GameData.fresh 0)).2.2.whiteElo = "\"2400\"".toList ∧
    formatNumber "\"2400\"".toList = "2400".toList ∧
    dataRows ["[WhiteElo \"\"2400\"\"]".toList] = ["0,2400,,,,,,Unknown category".toList] := by
  decide

/-! ## Proofs: a value with a comma -/

theorem isStoredTag_tagLine (K V : Str) : isStoredTag (tagLine K V) :=
  ⟨tagLine_head? K V, tagLine_getLast? K V, by simp [tagLine]⟩

theorem parseRun_of_tagLine (run pre post : List Str) (l K V : Str)
    (hn : ∀ x ∈ run, '\n' ∉ x) (hb : ∀ x ∈ run, isBlank x = false)
    (hrun : run = pre ++ l :: post) (hK : ' ' ∉ K) (hl : trim l = tagLine K V)
    (hpost : ∀ m ∈ post, ∀ v, tagOf (trim m) ≠ some (K, v)) :
    parseRun run =
        some (parseGame { headers := [] } (segmentText run) (GameData.fresh 0)).2.2 ∧
      getHeaderValue (parseGame { headers := [] } (segmentText run) (GameData.fresh 0)).2.1 K
        = V := by
  have hHL := headerLines_segmentText run hn hb
  have hl_mem : l ∈ run := by rw [hrun]; simp
  constructor
  · unfold parseRun
    simp only []
    rw [if_pos]
    rw [parseGame_fst_iff, hHL]
    exact ⟨trim l, List.mem_map.mpr ⟨l, hl_mem, rfl⟩, by rw [hl]; exact isStoredTag_tagLine K V⟩
  · apply getHeaderValue_of_last _ _ _ K V ((pre.map trim).filterMap tagOf)
      ((post.map trim).filterMap tagOf)
    · unfold storedTags
      rw [hHL, hrun, List.map_append, List.map_cons, List.filterMap_append,
        List.filterMap_cons, hl, tagOf_tagLine K V hK]
    · intro kv hkv he
      obtain ⟨t, ht, e⟩ := List.mem_filterMap.mp hkv
      obtain ⟨m, hm, e2⟩ := List.mem_map.mp ht
      subst e2
      apply hpost m hm kv.2
      rw [e, ← he]

theorem csvFields_writeRow_front (d : GameData) (he : isPlainField d.eco) :
    csvFields (writeRow d) =
      Nat.toDigits 10 d.gameNumber :: formatNumber d.whiteElo :: formatNumber d.blackElo ::
        d.eco :: escapeCSV d.opening :: escapeCSV d.event ::
        csvSplitAux false [] (d.result ++ ',' :: d.openingCategory) := by
  unfold csvFields writeRow
  simp only [List.append_assoc, List.singleton_append, List.cons_append, List.nil_append]
  rw [csvSplitAux_plain _ _ _ _ (isPlainField_toDigits _), csvSplitAux_comma,
    csvSplitAux_plain _ _ _ _ (isPlainField_formatNumber _), csvSplitAux_comma,
    csvSplitAux_plain _ _ _ _ (isPlainField_formatNumber _), csvSplitAux_comma,
    csvSplitAux_plain _ _ _ _ he, csvSplitAux_comma,
    csvSplitAux_escapeCSV, csvSplitAux_comma,
    csvSplitAux_escapeCSV, csvSplitAux_comma]
  simp only [List.nil_append]

theorem dataRows_of_single_segment (lines run : List Str) (hseg : segments lines = [run])
    (hp : parseRun run = some (runRecord run)) :
    dataRows lines = [writeRow (runRecord run)] := by
  rw [dataRows_eq, segmentsFrom_nil, hseg]
  simp only [List.filterMap_cons, hp, List.filterMap_nil, numberedRows, List.enumFrom_cons,
    List.enumFrom_nil, List.map_cons, List.map_nil]
  rfl

/-- C11, the statement that holds: when the only segment of the input has
the line `[Event "V"]` (up to blanks around it), no later line of the segment
is a tag line with key `Event`, and `V` has a comma and no double quote, then
`parseGame` extracts the event name `V` and the one data row written is the
comma-join of `0`, the two formatted ratings, the opening code, the escaped
opening name, `V` inside one pair of double quotes, the result and the
category; read as a CSV record the row has that quoted text as its sixth
field when the opening code holds no comma and no double quote.  The same
holds for `Opening` with the fifth place and the fifth field. -/
theorem C11_comma_value_is_quoted (lines run pre post : List Str) (l V : Str)
    (hn : ∀ x ∈ lines, '\n' ∉ x) (hseg : segments lines = [run])
    (hrun : run = pre ++ l :: post) (hc : ',' ∈ V) (hq : '"' ∉ V) :
    (trim l = tagLine "Event".toList V →
      (∀ m ∈ post, ∀ v, tagOf (trim m) ≠ some ("Event".toList, v)) →
      (runRecord run).event = V ∧
      dataRows lines =
        ["0".toList ++ [','] ++ formatNumber (runRecord run).whiteElo ++ [','] ++
          formatNumber (runRecord run).blackElo ++ [','] ++ (runRecord run).eco ++ [','] ++
          escapeCSV (runRecord run).opening ++ [','] ++ (['"'] ++ V ++ ['"']) ++ [','] ++
          (runRecord run).result ++ [','] ++ (runRecord run).openingCategory] ∧
      (isPlainField (runRecord run).eco →
        (dataRows lines).map (fun row => (csvFields row)[5]?) = [some (['"'] ++ V ++ ['"'])])) ∧
    (trim l = tagLine "Opening".toList V →
      (∀ m ∈ post, ∀ v, tagOf (trim m) ≠ some ("Opening".toList, v)) →
      (runRecord run).opening = V ∧
      dataRows lines =
        ["0".toList ++ [','] ++ formatNumber (runRecord run).whiteElo ++ [','] ++
          formatNumber (runRecord run).blackElo ++ [','] ++ (runRecord run).eco ++ [','] ++
          (['"'] ++ V ++ ['"']) ++ [','] ++ escapeCSV (runRecord run).event ++ [','] ++
          (runRecord run).result ++ [','] ++ (runRecord run).openingCategory] ∧
      (isPlainField (runRecord run).eco →
        (dataRows lines).map (fun row => (csvFields row)[4]?) = [some (['"'] ++ V ++ ['"'])])) := by
  have hmem := mem_segments lines run (by rw [hseg]; simp)
  have hnr : ∀ x ∈ run, '\n' ∉ x := fun x hx => hn x (hmem x hx).1
  have hbr : ∀ x ∈ run, isBlank x = false := fun x hx => (hmem x hx).2
  have hesc := escapeCSV_of_comma V hc hq
  constructor
  · intro hl hpost
    obtain ⟨h1, h2⟩ := parseRun_of_tagLine run pre post l _ V hnr hbr hrun (by decide) hl hpost
    have e : (runRecord run).event = V := h2
    have h0 : (runRecord run).gameNumber = 0 := rfl
    have hrows := dataRows_of_single_segment lines run hseg h1
    rw [hrows]
    generalize runRecord run = d at e h0
    have hd : Nat.toDigits 10 0 = "0".toList := by decide
    refine ⟨e, ?_, ?_⟩
    · unfold writeRow
      rw [e, hesc, h0, hd]
    · intro he
      rw [List.map_cons, List.map_nil, csvFields_writeRow_front _ he, e, hesc]
      simp only [List.getElem?_cons_succ, List.getElem?_cons_zero]
  · intro hl hpost
    obtain ⟨h1, h2⟩ := parseRun_of_tagLine run pre post l _ V hnr hbr hrun (by decide) hl hpost
    have e : (runRecord run).opening = V := h2
    have h0 : (runRecord run).gameNumber = 0 := rfl
    have hrows := dataRows_of_single_segment lines run hseg h1
    rw [hrows]
    generalize runRecord run = d at e h0
    have hd : Nat.toDigits 10 0 = "0".toList := by decide
    refine ⟨e, ?_, ?_⟩
    · unfold writeRow
      rw [e, hesc, h0, hd]
    · intro he
      rw [List.map_cons, List.map_nil, csvFields_writeRow_front _ he, e, hesc]
      simp only [List.getElem?_cons_succ, List.getElem?_cons_zero]

/-- C11 at the segment with the lines `  [Event "City, Country"]` (with a
carriage return at its end) and `1. e4 e5`, closed by an empty line: the one
data row is `0,,,,,"City, Country",,Unknown category` and its sixth field is
`"City, Country"` with the quotes. -/
theorem C11_comma_value_is_quoted_witness :
    segments ["  [Event \"City, Country\"]\r".toList, "1. e4 e5".toList, "".toList] =
      [["  [Event \"City, Country\"]\r".toList, "1. e4 e5".toList]] ∧
    trim "  [Event \"City, Country\"]\r".toList = tagLine "Event".toList "City, Country".toList ∧
    (runRecord ["  [Event \"City, Country\"]\r".toList, "1. e4 e5".toList]).event =
      "City, Country".toList ∧
    dataRows ["  [Event \"City, Country\"]\r".toList, "1. e4 e5".toList, "".toList] =
      ["0,,,,,\"City, Country\",,Unknown category".toList] ∧
    (dataRows ["  [Event \"City, Country\"]\r".toList, "1. e4 e5".toList, "".toList]).map
      (fun row => (csvFields row)[5]?) = [some "\"City, Country\"".toList] := by
  have h := (C11_comma_value_is_quoted
      ["  [Event \"City, Country\"]\r".toList, "1. e4 e5".toList, "".toList]
      ["  [Event \"City, Country\"]\r".toList, "1. e4 e5".toList] []
      ["1. e4 e5".toList] "  [Event \"City, Country\"]\r".toList "City, Country".toList
      (by decide) (by decide) rfl (by decide) (by decide)).1 (by decide)
      (by
        intro m hm v h
        rw [List.mem_singleton] at hm
        subst hm
        have hnone : tagOf (trim "1. e4 e5".toList) = none := by decide
        rw [hnone] at h
        exact Option.noConfusion h)
  exact ⟨by decide, by decide, h.1, h.2.1.trans (by decide), h.2.2 ⟨by decide, by decide⟩⟩

/-- C11 fails when a later line of the segment has the same key: the only
segment of this input has the tag line `[Event "a,b"]`, and the event name
written in the one data row, its sixth field, is `c`, not `"a,b"`. -/
theorem C11_later_tag_counterexample :
    segments ["[Event \"a,b\"]".toList, "[Event \"c\"]".toList] =
      [["[Event \"a,b\"]".toList, "[Event \"c\"]".toList]] ∧
    "[Event \"a,b\"]".toList = tagLine "Event".toList "a,b".toList ∧
    dataRows ["[Event \"a,b\"]".toList, "[Event \"c\"]".toList] =
      ["0,,,,,c,,Unknown category".toList] ∧
    (dataRows ["[Event \"a,b\"]".toList, "[Event \"c\"]".toList]).map
      (fun row => (csvFields row)[5]?) = [some "c".toList] ∧
    ¬ ∃ d, dataRows ["[Event \"a,b\"]".toList, "[Event \"c\"]".toList] = [writeRow d] ∧
      escapeCSV d.event = ['"'] ++ "a,b".toList ++ ['"'] := by
  refine ⟨by decide, by decide, by decide, by decide, ?_⟩
  rintro ⟨d, h1, h2⟩
  have hrow : dataRows ["[Event \"a,b\"]".toList, "[Event \"c\"]".toList] =
      ["0,,,,,c,,Unknown category".toList] := by decide
  rw [hrow, List.cons.injEq] at h1
  have hmem : '"' ∈ writeRow d := by
    unfold writeRow
    rw [h2]
    simp
  rw [← h1.1] at hmem
  exact absurd hmem (by decide)

end PgnCsv
